import Mathlib

/-!
Shallow embedding of the DC circuit-analysis engine in
`src/js/circuit-simulator.js` (class `CircuitAnalyzer`), together with proofs
of the specification claims about it.

Numbers are modelled by exact rationals (ℚ); IEEE double rounding is not
modelled.  The JS test `Math.sqrt(dx*dx+dy*dy) <= tolerance` is modelled by
the equivalent square comparison `dx^2 + dy^2 <= tolerance^2`, and JS
`Math.round` by `jsRound q = ⌊q + 1/2⌋` (round half towards +∞), which agrees
with `Math.round` on every finite double.  JS `Map` objects are modelled by
association lists with the same get/set semantics.
-/

namespace CircuitSim

/-! ### Data model (renderer.js `Component`, `Wire`; analyzer inputs) -/

/-- A coordinate point (JS `Vector2` / `{x, y}`). -/
structure Pt where
  x : ℚ
  y : ℚ
  deriving DecidableEq

/-- Component kinds that appear in `circuit-simulator.js`'s switches. -/
inductive CompType where
  | resistor
  | capacitor
  | inductor
  | voltage
  | ground
  deriving DecidableEq

/-- Numeric properties of a component (`component.properties`).  A field is
`none` when the JS object lacks that key (reads give `undefined`). -/
structure Props where
  resistance : Option ℚ := none
  capacitance : Option ℚ := none
  inductance : Option ℚ := none
  voltage : Option ℚ := none
  power : Option ℚ := none
  deriving DecidableEq

/-- JS `a || d` for a numeric property read `a`: `undefined` and `0` are
falsy, any other number is returned unchanged. -/
def jsOr (a : Option ℚ) (d : ℚ) : ℚ :=
  match a with
  | some v => if v = 0 then d else v
  | none => d

/-- A placed component as the analyzer consumes it: its `type`, the point
list returned by `getConnectionPoints()`, and its `properties`. -/
structure CComponent where
  id : ℕ
  ctype : CompType
  connectionPoints : List Pt
  properties : Props
  deriving DecidableEq

/-- A wire segment (`{startPoint, endPoint}`). -/
structure Wire where
  startPoint : Pt
  endPoint : Pt
  deriving DecidableEq

/-! ### Geometry clustering (`buildNetlist`, lines 58-119) -/

/-- Entry of the `allPoints` array: coordinates plus whether the owning
component is a ground (`point.component && point.component.type === 'ground'`;
wire endpoints carry no component and give `false`). -/
structure APoint where
  x : ℚ
  y : ℚ
  fromGround : Bool
  deriving DecidableEq

/-- The `allPoints` array: all component connection points (in component
order), then both endpoints of every wire. -/
def allPoints (comps : List CComponent) (wires : List Wire) : List APoint :=
  (comps.flatMap fun c =>
    c.connectionPoints.map fun p => ⟨p.x, p.y, decide (c.ctype = CompType.ground)⟩)
  ++ wires.flatMap fun w =>
    [⟨w.startPoint.x, w.startPoint.y, false⟩, ⟨w.endPoint.x, w.endPoint.y, false⟩]

/-- The tolerance test of lines 107-112: Euclidean distance at most 15,
expressed by comparing squares. -/
def withinTol (p q : APoint) : Bool :=
  decide ((p.x - q.x) ^ 2 + (p.y - q.y) ^ 2 ≤ 15 ^ 2)

/-- One iteration of the inner scan (lines 104-116): skip processed points,
otherwise add any point within tolerance of the seed `p` to the group and
mark it processed. -/
def grabStep (p : APoint) (acc : List (ℕ × APoint) × List ℕ) (q : ℕ × APoint) :
    List (ℕ × APoint) × List ℕ :=
  if q.1 ∈ acc.2 then acc
  else if withinTol p q.2 then (acc.1 ++ [q], acc.2 ++ [q.1]) else acc

/-- The outer grouping loop (lines 97-119): for each unprocessed point start
a group seeded with it, scan all points for unprocessed neighbours of the
seed, and record the group.  Points are identified by their index in
`allPoints`, mirroring the JS `processed` index set. -/
def clusterGo (all : List (ℕ × APoint)) :
    List (ℕ × APoint) → List ℕ → List (List (ℕ × APoint))
  | [], _ => []
  | ip :: rest, processed =>
    if ip.1 ∈ processed then clusterGo all rest processed
    else
      let ga := all.foldl (grabStep ip.2) ([ip], processed ++ [ip.1])
      ga.1 :: clusterGo all rest ga.2

/-- The `nodeGroups` list produced by the clustering pass. -/
def buildGroups (pts : List APoint) : List (List (ℕ × APoint)) :=
  clusterGo pts.enum pts.enum []

/-! ### Node-id assignment (`buildNetlist`, lines 121-158) -/

/-- JS `Math.round` on an exact rational: round half towards +∞. -/
def jsRound (q : ℚ) : ℤ := ⌊q + 1 / 2⌋

/-- Rounded-coordinate key, JS template string `round(x),round(y)`. -/
structure Key where
  kx : ℤ
  ky : ℤ
  deriving DecidableEq

/-- Key of a pair of coordinates. -/
def pkeyXY (x y : ℚ) : Key := ⟨jsRound x, jsRound y⟩

/-- Key of an `allPoints` entry. -/
def APoint.key (p : APoint) : Key := pkeyXY p.x p.y

/-- Key of a raw point. -/
def Pt.key (p : Pt) : Key := pkeyXY p.x p.y

/-- The `nodeMap` JS `Map`, as an association list. -/
abbrev NodeMap := List (Key × ℕ)

/-- JS `Map.get`. -/
def mget (m : NodeMap) (k : Key) : Option ℕ :=
  (m.find? fun e => decide (e.1 = k)).map Prod.snd

/-- JS `Map.set`: bind `k` to `v`, replacing any existing binding.  The
analyzer only ever observes the map through `get`, never through entry
iteration, so the entry order is irrelevant and the binding is kept at the
front. -/
def mset (m : NodeMap) (k : Key) (v : ℕ) : NodeMap :=
  (k, v) :: m.filter fun e => !decide (e.1 = k)

/-- Whether a group contains a terminal of a ground component
(the `hasGround` test of lines 128-130). -/
def hasGroundPoint (g : List (ℕ × APoint)) : Bool :=
  g.any fun q => q.2.fromGround

/-- First pass (lines 126-139): only the first group containing a ground
terminal gets its keys bound to node id 0 (the `groundNodeId === null`
guard). -/
def groundPass (groups : List (List (ℕ × APoint))) : NodeMap :=
  match groups.find? hasGroundPoint with
  | some g => g.foldl (fun m q => mset m q.2.key 0) []
  | none => []

/-- One step of the second pass (lines 144-158): ground-containing groups
are skipped entirely; otherwise every key of the group not already bound is
bound to the current `nodeId`, which is then incremented. -/
def assignStep (mn : NodeMap × ℕ) (g : List (ℕ × APoint)) : NodeMap × ℕ :=
  if hasGroundPoint g then mn
  else
    (g.foldl (fun m q => if (mget m q.2.key).isSome then m else mset m q.2.key mn.2) mn.1,
     mn.2 + 1)

/-- Second pass over all groups, threading `(nodeMap, nodeId)`. -/
def assignPass (groups : List (List (ℕ × APoint))) (m0 : NodeMap) (start : ℕ) :
    NodeMap × ℕ :=
  groups.foldl assignStep (m0, start)

/-! ### Netlist construction (`buildNetlist`, lines 160-186) -/

/-- Per-component results attached by `calculateComponentValues`. -/
structure CompSim where
  voltage : ℚ
  current : ℚ
  power : ℚ
  nodeVoltages : List ℚ
  deriving DecidableEq

/-- A netlist element (lines 172-178); `simulationResults` is absent until
`calculateComponentValues` fills it in. -/
structure NetComp where
  id : ℕ
  ctype : CompType
  nodes : List ℕ
  properties : Props
  simulationResults : Option CompSim := none
  deriving DecidableEq

/-- The netlist record (`nodeCount` is the final `nodeId`). -/
structure Netlist where
  components : List NetComp
  nodeCount : ℕ
  deriving DecidableEq

/-- Line 167, `nodeMap.get(key) || 0`: a missing binding falls back to node
0 (and a bound 0 stays 0, so this is exactly `getD 0`). -/
def resolveNode (m : NodeMap) (p : Pt) : ℕ := (mget m p.key).getD 0

/-- Both passes of node-id assignment over the clustered groups: the
resulting `(nodeMap, nodeId)` pair of lines 121-158. -/
def netlistAssign (comps : List CComponent) (wires : List Wire) : NodeMap × ℕ :=
  let groups := buildGroups (allPoints comps wires)
  assignPass groups (groundPass groups)
    (if groups.any hasGroundPoint then 1 else 0)

/-- The whole of `buildNetlist` (lines 51-186): cluster, assign node ids
with the first ground cluster fixed at 0, then rewrite every non-ground
component as a tuple of node ids. -/
def buildNetlist (comps : List CComponent) (wires : List Wire) : Netlist :=
  { components :=
      (comps.filter fun c => decide (c.ctype ≠ CompType.ground)).map fun c =>
        { id := c.id
          ctype := c.ctype
          nodes := c.connectionPoints.map (resolveNode (netlistAssign comps wires).1)
          properties := c.properties
          simulationResults := none }
    nodeCount := (netlistAssign comps wires).2 }

/-! ### The C6 counterexample circuit -/

/-- First ground, clustered alone far away at (300, 300). -/
def cexG1 : CComponent :=
  { id := 10, ctype := CompType.ground, connectionPoints := [⟨300, 300⟩], properties := {} }

/-- Resistor whose left terminal (-4.5, 0) seeds the cluster that grabs
(10.5, 0). -/
def cexR1 : CComponent :=
  { id := 11, ctype := CompType.resistor, connectionPoints := [⟨-9/2, 0⟩, ⟨500, 0⟩],
    properties := { resistance := some 100 } }

/-- Resistor with terminal (10.5, 0): key rounds to (11, 0). -/
def cexR2 : CComponent :=
  { id := 12, ctype := CompType.resistor, connectionPoints := [⟨21/2, 0⟩, ⟨600, 0⟩],
    properties := { resistance := some 100 } }

/-- Resistor with terminal (11, 0): same rounded key (11, 0), but clustered
with the second ground. -/
def cexR3 : CComponent :=
  { id := 13, ctype := CompType.resistor, connectionPoints := [⟨11, 0⟩, ⟨700, 0⟩],
    properties := { resistance := some 100 } }

/-- Second ground, at (11, 0), clustered with cexR3's left terminal. -/
def cexG2 : CComponent :=
  { id := 14, ctype := CompType.ground, connectionPoints := [⟨11, 0⟩], properties := {} }

/-- The counterexample component list. -/
def cexComps : List CComponent := [cexG1, cexR1, cexR2, cexR3, cexG2]

/-! ### Linear system assembly (`solveCircuit`, `addResistor`, ..., lines 210-317) -/

/-- A dense matrix as a row list. -/
abbrev Mat := List (List ℚ)

/-- A dense vector. -/
abbrev Vec := List ℚ

/-- Entry read `M[i][j]` (the pipeline only reads in-range entries). -/
def entry (M : Mat) (i j : ℕ) : ℚ := (M.getD i []).getD j 0

/-- In-place `M[i][j] += d`. -/
def updAdd (M : Mat) (i j : ℕ) (d : ℚ) : Mat :=
  M.set i ((M.getD i []).set j (entry M i j + d))

/-- In-place `v[i] += d`. -/
def vecAdd (v : Vec) (i : ℕ) (d : ℚ) : Vec :=
  v.set i (v.getD i 0 + d)

/-- The resistor stamp (lines 257-271).  `comp.nodes` destructures to
`[node1, node2]`; a missing entry behaves like `0` here because JS
`undefined > 0` is false.  Conductance is `1 / (resistance || 1000)`. -/
def addResistor (G : Mat) (I : Vec) (comp : NetComp) : Mat × Vec :=
  let node1 := comp.nodes.getD 0 0
  let node2 := comp.nodes.getD 1 0
  let conductance := 1 / jsOr comp.properties.resistance 1000
  let G := if node1 > 0 then updAdd G (node1 - 1) (node1 - 1) conductance else G
  let G := if node2 > 0 then updAdd G (node2 - 1) (node2 - 1) conductance else G
  let G :=
    if node1 > 0 ∧ node2 > 0 then
      updAdd (updAdd G (node1 - 1) (node2 - 1) (-conductance))
        (node2 - 1) (node1 - 1) (-conductance)
    else G
  (G, I)

/-- The voltage-source stamp (lines 274-288): large-conductance penalty
method with `g_big = 1000` and `voltage || 5`. -/
def addVoltageSource (G : Mat) (I : Vec) (comp : NetComp) : Mat × Vec :=
  let nodePos := comp.nodes.getD 0 0
  let nodeNeg := comp.nodes.getD 1 0
  let voltage := jsOr comp.properties.voltage 5
  let GI :=
    if nodePos > 0 then
      (updAdd G (nodePos - 1) (nodePos - 1) 1000, vecAdd I (nodePos - 1) (voltage * 1000))
    else (G, I)
  if nodeNeg > 0 then
    (updAdd GI.1 (nodeNeg - 1) (nodeNeg - 1) 1000, vecAdd GI.2 (nodeNeg - 1) (-(voltage * 1000)))
  else GI

/-- The capacitor stamp (lines 291-299): open circuit in DC, no effect. -/
def addCapacitor (G : Mat) (I : Vec) (_comp : NetComp) : Mat × Vec := (G, I)

/-- The inductor stamp (lines 302-317): a fixed conductance 1000 between
the two nodes, exactly like a resistor of 1/1000 Ω. -/
def addInductor (G : Mat) (I : Vec) (comp : NetComp) : Mat × Vec :=
  let node1 := comp.nodes.getD 0 0
  let node2 := comp.nodes.getD 1 0
  let conductance : ℚ := 1000
  let G := if node1 > 0 then updAdd G (node1 - 1) (node1 - 1) conductance else G
  let G := if node2 > 0 then updAdd G (node2 - 1) (node2 - 1) conductance else G
  let G :=
    if node1 > 0 ∧ node2 > 0 then
      updAdd (updAdd G (node1 - 1) (node2 - 1) (-conductance))
        (node2 - 1) (node1 - 1) (-conductance)
    else G
  (G, I)

/-- The `switch (comp.type)` of lines 222-240. -/
def stampComp (GI : Mat × Vec) (comp : NetComp) : Mat × Vec :=
  match comp.ctype with
  | CompType.resistor => addResistor GI.1 GI.2 comp
  | CompType.voltage => addVoltageSource GI.1 GI.2 comp
  | CompType.capacitor => addCapacitor GI.1 GI.2 comp
  | CompType.inductor => addInductor GI.1 GI.2 comp
  | CompType.ground => GI

/-! ### Dense linear solver (`solveLinearSystem`, lines 320-362) -/

/-- Pivot search (lines 326-332): the first row index in `[i..n)` whose
column-`i` entry has the strictly largest absolute value. -/
def findMaxRow (M : Mat) (n i : ℕ) : ℕ :=
  (List.range' (i + 1) (n - (i + 1))).foldl
    (fun maxRow k => if |entry M k i| > |entry M maxRow i| then k else maxRow) i

/-- Row swap (line 335). -/
def swapRows (M : Mat) (i j : ℕ) : Mat :=
  let ri := M.getD i []
  let rj := M.getD j []
  (M.set i rj).set j ri

/-- Row update of the elimination loop (lines 343-348): for `j` from `i` to
`n`, `row[j] -= factor * pivotRow[j]` with `factor = row[i] / pivotRow[i]`. -/
def elimRow (pivotRow : List ℚ) (row : List ℚ) (i : ℕ) : List ℚ :=
  let factor := row.getD i 0 / pivotRow.getD i 0
  row.enum.map fun ja => if i ≤ ja.1 then ja.2 - factor * pivotRow.getD ja.1 0 else ja.2

/-- Eliminate column `i` from every row below row `i`. -/
def elimStep (M : Mat) (i : ℕ) : Mat :=
  M.enum.map fun krow => if i + 1 ≤ krow.1 then elimRow (M.getD i []) krow.2 i else krow.2

/-- Error message of line 339. -/
def singularMsg : String :=
  "Circuit equations are singular. Check for floating nodes or invalid connections."

/-- The singular-pivot threshold of line 338. -/
def pivotEps : ℚ := 1 / 10 ^ 10

/-- Forward elimination (lines 325-349), one recursive step per pivot
column `i`; `fuel = n - i` counts the remaining columns. -/
def forwardAux (n : ℕ) : ℕ → ℕ → Mat → Except String Mat
  | _, 0, M => Except.ok M
  | i, fuel + 1, M =>
    let M1 := swapRows M i (findMaxRow M n i)
    if |entry M1 i i| < pivotEps then Except.error singularMsg
    else forwardAux n (i + 1) fuel (elimStep M1 i)

/-- Back substitution (lines 352-359), filling `x` from the last row to the
first; `xs` holds the already-computed tail `[x_i, ..., x_(n-1)]`. -/
def backSubAux (M : Mat) (n : ℕ) : ℕ → List ℚ → List ℚ
  | 0, xs => xs
  | i + 1, xs =>
    let row := M.getD i []
    let s := ((row.take n).drop (i + 1)).zip xs
    let xi := (row.getD n 0 - s.foldl (fun a p => a + p.1 * p.2) 0) / row.getD i 0
    backSubAux M n i (xi :: xs)

/-- `solveLinearSystem(A, b)` (lines 320-362): augment, forward-eliminate
with partial pivoting, then back-substitute. -/
def solveLinearSystem (A : Mat) (b : Vec) : Except String Vec :=
  let n := A.length
  let augmented := (A.zip b).map fun rb => rb.1 ++ [rb.2]
  (forwardAux n 0 n augmented).map fun M => backSubAux M n n []

/-! ### Circuit solve and post-processing (lines 210-254, 365-405) -/

/-- Error message of line 214. -/
def needNodeMsg : String := "Circuit must have at least one non-ground node"

/-- The `results` object returned by `solveCircuit` (lines 248-253). -/
structure SolveResult where
  nodeVoltages : List ℚ
  netlist : Netlist
  matrix : Mat
  current : Vec
  deriving DecidableEq

/-- Assembly loop of `solveCircuit` (lines 217-240): start from the zero
`n x n` conductance matrix and zero current vector with
`n = nodeCount - 1`, and stamp every netlist component. -/
def assembleGI (nl : Netlist) : Mat × Vec :=
  let n := nl.nodeCount - 1
  nl.components.foldl stampComp
    (List.replicate n (List.replicate n 0), List.replicate n 0)

/-- `solveCircuit` (lines 211-254): build the `n x n` system with
`n = nodeCount - 1`, stamp every component, solve, and prepend the ground
voltage 0. -/
def solveCircuit (nl : Netlist) : Except String SolveResult :=
  if nl.nodeCount - 1 = 0 then Except.error needNodeMsg
  else
    (solveLinearSystem (assembleGI nl).1 (assembleGI nl).2).map fun nodeVoltages =>
      { nodeVoltages := 0 :: nodeVoltages
        netlist := nl
        matrix := (assembleGI nl).1
        current := (assembleGI nl).2 }

/-- Per-component post-processing (lines 368-404) for one netlist element:
voltage from the node-voltage vector, then kind-specific current and power. -/
def calcComp (nodeVoltages : List ℚ) (comp : NetComp) : NetComp :=
  let node1 := comp.nodes.getD 0 0
  let node2 := comp.nodes.getD 1 0
  let v1 := nodeVoltages.getD node1 0
  let v2 := nodeVoltages.getD node2 0
  let voltage := v1 - v2
  let cur_pow : ℚ × ℚ :=
    match comp.ctype with
    | CompType.resistor =>
      let current := voltage / (comp.properties.resistance.getD 0)
      (current, voltage * current)
    | CompType.voltage => (0, jsOr comp.properties.voltage 5 * 0)
    | CompType.capacitor => (0, 0)
    | CompType.inductor =>
      let current := voltage / (1 / 1000)
      (current, voltage * current)
    | CompType.ground => (0, 0)
  { comp with
    simulationResults :=
      some { voltage := voltage, current := cur_pow.1, power := cur_pow.2,
             nodeVoltages := [v1, v2] } }

/-- `calculateComponentValues` (lines 365-405): attach a `simulationResults`
record to every netlist element, leaving everything else unchanged. -/
def calculateComponentValues (r : SolveResult) : SolveResult :=
  { r with
    netlist :=
      { r.netlist with components := r.netlist.components.map (calcComp r.nodeVoltages) } }

/-! ### The engine object and `simulate` (lines 3-48, 188-208) -/

/-- Error message of line 192. -/
def noGroundMsg : String := "No ground reference found. Please add a ground component."

/-- The mutable fields of `CircuitAnalyzer` that the pipeline touches. -/
structure EngineState where
  components : List CComponent
  wires : List Wire
  groundNode : Option ℕ
  simulationResults : Option SolveResult
  isSimulating : Bool
  deriving DecidableEq

/-- The fresh engine produced by the constructor / `reset()`. -/
def initState : EngineState :=
  { components := [], wires := [], groundNode := none,
    simulationResults := none, isSimulating := false }

/-- `simulate(components, wires)` (lines 14-48).  The JS method first
stores its arguments, then runs build-netlist, ground check
(`findGroundReference`, which throws on zero grounds and otherwise sets
`groundNode = 0`), solve, and post-processing inside a `try`; only a fully
successful run stores `simulationResults`.  The returned value is `.ok`
with the results object, or `.error` with the thrown message. -/
def simulate (st : EngineState) (comps : List CComponent) (wires : List Wire) :
    EngineState × Except String SolveResult :=
  let st := { st with components := comps, wires := wires }
  let nl := buildNetlist comps wires
  if (comps.filter fun c => decide (c.ctype = CompType.ground)).isEmpty then
    (st, Except.error noGroundMsg)
  else
    let st := { st with groundNode := some 0 }
    match solveCircuit nl with
    | Except.error e => (st, Except.error e)
    | Except.ok res =>
      let res := calculateComponentValues res
      ({ st with simulationResults := some res, isSimulating := true }, Except.ok res)

/-! ### Validation (`validateCircuit`, lines 416-454) -/

/-- Result of `validateCircuit`. -/
structure ValidationResult where
  isValid : Bool
  issues : List String
  deriving DecidableEq

/-- Textual rendering of a rational in an issue message.  JS formats with
`toFixed`; the digits of the rendering are irrelevant to every claim, only
that some string is produced. -/
def fmtQ (q : ℚ) : String := toString q.num ++ "/" ++ toString q.den

/-- Name of a component type as it appears in issue messages. -/
def typeName : CompType → String
  | CompType.resistor => "resistor"
  | CompType.capacitor => "capacitor"
  | CompType.inductor => "inductor"
  | CompType.voltage => "voltage"
  | CompType.ground => "ground"

/-- Issues contributed by one component (lines 434-448): a high-current
warning above 10 A, and a power-rating warning for resistors whose
`properties.power` is set (truthy) and exceeded. -/
def compIssues (comp : NetComp) : List String :=
  match comp.simulationResults with
  | none => []
  | some sr =>
    (if |sr.current| > 10 then
      ["High current (" ++ fmtQ sr.current ++ "A) in " ++ typeName comp.ctype]
     else []) ++
    (if comp.ctype = CompType.resistor then
      match comp.properties.power with
      | some pw =>
        if pw ≠ 0 ∧ |sr.power| > pw then ["Power rating exceeded in resistor"] else []
      | none => []
     else [])

/-- `validateCircuit()` (lines 416-454): without a cached result it reports
invalid with the fixed message; otherwise it collects warnings and is valid
exactly when none were produced (`issues.length === 0`). -/
def validateCircuit (st : EngineState) : ValidationResult :=
  match st.simulationResults with
  | none => { isValid := false, issues := ["Circuit not simulated yet"] }
  | some res =>
    let issues := res.netlist.components.flatMap compIssues
    { isValid := issues.isEmpty, issues := issues }

/-- Matrix-vector product, used to state that the solver output solves the
assembled system. -/
def matVec (A : Mat) (x : Vec) : Vec :=
  A.map fun row => (row.zip x).foldl (fun a p => a + p.1 * p.2) 0

/-! ### A concrete witness circuit: one ground, one 100 Ω resistor -/

/-- Demo ground component at the origin. -/
def demoGround : CComponent :=
  { id := 0, ctype := CompType.ground, connectionPoints := [⟨0, 0⟩], properties := {} }

/-- Demo resistor between the origin and (100, 0). -/
def demoResistor : CComponent :=
  { id := 1, ctype := CompType.resistor, connectionPoints := [⟨0, 0⟩, ⟨100, 0⟩],
    properties := { resistance := some 100 } }

/-- Demo component list. -/
def demoComps : List CComponent := [demoResistor, demoGround]

/-- Netlist the demo circuit builds to. -/
def demoNetlist : Netlist :=
  { components :=
      [{ id := 1, ctype := CompType.resistor, nodes := [0, 1],
         properties := { resistance := some 100 }, simulationResults := none }]
    nodeCount := 2 }

/-- Full successful result of simulating the demo circuit. -/
def demoResult : SolveResult :=
  { nodeVoltages := [0, 0]
    netlist :=
      { components :=
          [{ id := 1, ctype := CompType.resistor, nodes := [0, 1],
             properties := { resistance := some 100 },
             simulationResults := some ⟨0, 0, 0, [0, 0]⟩ }]
        nodeCount := 2 }
    matrix := [[1 / 100]]
    current := [0] }

/-- Predicate for the points grabbed into a group: unprocessed and within
tolerance of the seed. -/
def isMate (pr : List ℕ) (p : APoint) (q : ℕ × APoint) : Bool :=
  decide (q.1 ∉ pr) && withinTol p q.2

/-! ### Helper lemmas on the success path -/

/-- A successful `simulate` comes from a successful `solveCircuit` on the
built netlist, post-processed by `calculateComponentValues`. -/
lemma simulate_ok_iff (st : EngineState) (comps : List CComponent) (wires : List Wire)
    (r : SolveResult) (h : (simulate st comps wires).2 = Except.ok r) :
    ∃ res, solveCircuit (buildNetlist comps wires) = Except.ok res ∧
      r = calculateComponentValues res := by
  unfold simulate at h
  by_cases hg : (comps.filter fun c => decide (c.ctype = CompType.ground)).isEmpty
  · simp [hg] at h
  · simp only [hg, Bool.false_eq_true, if_false] at h
    cases hs : solveCircuit (buildNetlist comps wires) with
    | error e => simp [hs] at h
    | ok res =>
      refine ⟨res, rfl, ?_⟩
      simp [hs] at h
      exact h.symm

/-- Shape of a successful `solveCircuit`. -/
lemma solveCircuit_ok_shape (nl : Netlist) (res : SolveResult)
    (h : solveCircuit nl = Except.ok res) :
    nl.nodeCount - 1 ≠ 0 ∧ res.netlist = nl ∧
    ∃ x, res.nodeVoltages = 0 :: x ∧
      solveLinearSystem (assembleGI nl).1 (assembleGI nl).2 = Except.ok x := by
  unfold solveCircuit at h
  by_cases hn : nl.nodeCount - 1 = 0
  · simp [hn] at h
  · refine ⟨hn, ?_⟩
    simp only [hn, if_false] at h
    cases hs : solveLinearSystem (assembleGI nl).1 (assembleGI nl).2 with
    | error e => rw [hs] at h; simp [Except.map] at h
    | ok x =>
      rw [hs] at h
      simp only [Except.map, Except.ok.injEq] at h
      subst h
      exact ⟨rfl, x, rfl, rfl⟩

/-- `updAdd` preserves the row count. -/
lemma updAdd_length (M : Mat) (i j : ℕ) (d : ℚ) : (updAdd M i j d).length = M.length :=
  List.length_set ..

/-- Every stamp preserves the shape of the matrix. -/
lemma stampComp_fst_length (GI : Mat × Vec) (c : NetComp) :
    (stampComp GI c).1.length = GI.1.length := by
  unfold stampComp addResistor addVoltageSource addCapacitor addInductor
  cases c.ctype <;> dsimp only <;> split_ifs <;> simp [updAdd_length]

/-- Folding stamps over the component list preserves the row count. -/
lemma foldl_stamp_length (l : List NetComp) (GI : Mat × Vec) :
    (l.foldl stampComp GI).1.length = GI.1.length := by
  induction l generalizing GI with
  | nil => rfl
  | cons c t ih => rw [List.foldl_cons, ih, stampComp_fst_length]

/-- Back substitution produces one voltage per remaining row index. -/
lemma backSubAux_length (M : Mat) (n : ℕ) :
    ∀ i xs, (backSubAux M n i xs).length = i + xs.length := by
  intro i
  induction i with
  | zero => intro xs; simp [backSubAux]
  | succ k ih =>
    intro xs
    rw [backSubAux, ih]
    simp
    omega

/-- Unfolding lemma for `solveLinearSystem` with the local lets resolved. -/
lemma solveLinearSystem_eq (A : Mat) (b : Vec) :
    solveLinearSystem A b =
      (forwardAux A.length 0 A.length ((A.zip b).map fun rb => rb.1 ++ [rb.2])).map
        fun M => backSubAux M A.length A.length [] := rfl

/-- A successful linear solve returns as many unknowns as there are rows. -/
lemma solveLinearSystem_ok_length (A : Mat) (b : Vec) (x : Vec)
    (h : solveLinearSystem A b = Except.ok x) : x.length = A.length := by
  rw [solveLinearSystem_eq] at h
  cases hf : forwardAux A.length 0 A.length ((A.zip b).map fun rb => rb.1 ++ [rb.2]) with
  | error e => rw [hf] at h; simp [Except.map] at h
  | ok M =>
    rw [hf] at h
    simp only [Except.map, Except.ok.injEq] at h
    rw [← h, backSubAux_length]
    simp

/-! ### Claim C1 -/

/-- Claim C1: on every successful `simulate`, the returned node-voltage
vector has exactly `nodeCount` entries and its entry at index 0 (ground)
is exactly 0. -/
theorem simulate_success_voltages (st : EngineState) (comps : List CComponent)
    (wires : List Wire) (r : SolveResult)
    (h : (simulate st comps wires).2 = Except.ok r) :
    r.nodeVoltages.length = r.netlist.nodeCount ∧ r.nodeVoltages.head? = some 0 := by
  obtain ⟨res, hres, hr⟩ := simulate_ok_iff st comps wires r h
  obtain ⟨hn, hnl, x, hx, hsys⟩ := solveCircuit_ok_shape _ _ hres
  have hxlen : x.length = (buildNetlist comps wires).nodeCount - 1 := by
    have := solveLinearSystem_ok_length _ _ _ hsys
    rwa [assembleGI, foldl_stamp_length, List.length_replicate] at this
  have hcalc_nv : r.nodeVoltages = res.nodeVoltages := by
    rw [hr]; rfl
  have hcalc_nc : r.netlist.nodeCount = res.netlist.nodeCount := by
    rw [hr]; rfl
  rw [hcalc_nv, hcalc_nc, hx, hnl]
  constructor
  · simp only [List.length_cons, hxlen]
    omega
  · rfl


/-- The demo circuit builds exactly `demoNetlist`. -/
lemma demo_build : buildNetlist demoComps [] = demoNetlist := by
  have hrg : (CompType.resistor = CompType.ground) = False := by simp
  norm_num [hrg, ne_eq, demoComps, demoResistor, demoGround, buildNetlist,
    buildGroups, allPoints, clusterGo, grabStep, withinTol, groundPass, assignPass,
    assignStep, hasGroundPoint, mset, mget, APoint.key, Pt.key, pkeyXY, jsRound,
    resolveNode, netlistAssign, demoNetlist, List.enum, List.filter, List.find?, List.flatMap]

/-- The demo circuit simulates successfully to `demoResult`. -/
lemma demo_simulate : (simulate initState demoComps []).2 = Except.ok demoResult := by
  have hrg : (CompType.resistor = CompType.ground) = False := by simp
  have hb : buildNetlist demoComps [] = demoNetlist := demo_build
  simp only [demoComps, demoResistor, demoGround] at hb
  norm_num [hrg, ne_eq, simulate, initState, demoComps, demoResistor, demoGround, hb,
    demoNetlist, solveCircuit, assembleGI, stampComp, addResistor, jsOr, updAdd, entry,
    solveLinearSystem, forwardAux, findMaxRow, swapRows, elimStep, elimRow, pivotEps,
    backSubAux, calculateComponentValues, calcComp, demoResult, Except.map,
    List.filter, List.find?, List.zip, List.range', List.enum, abs_of_nonneg]

/-- Witness for C1: the demo run has 2 voltages for 2 nodes and ground 0. -/
theorem simulate_success_voltages_witness :
    demoResult.nodeVoltages.length = demoResult.netlist.nodeCount ∧
    demoResult.nodeVoltages.head? = some 0 :=
  simulate_success_voltages initState demoComps [] demoResult demo_simulate

/-! ### Claim C2 -/

/-- Claim C2: with zero ground components, `simulate` fails with the
no-ground `TopologyError` message, short-circuiting before `solveCircuit`
(and hence before the linear solver) is reached, and the failure value is a
bare error carrying no voltages or component results; the cached result is
untouched. -/
theorem simulate_no_ground (st : EngineState) (comps : List CComponent)
    (wires : List Wire) (hng : ∀ c ∈ comps, c.ctype ≠ CompType.ground) :
    (simulate st comps wires).2 = Except.error noGroundMsg ∧
    (simulate st comps wires).1.simulationResults = st.simulationResults := by
  have hfil : (comps.filter fun c => decide (c.ctype = CompType.ground)) = [] := by
    rw [List.filter_eq_nil_iff]
    intro c hc
    simpa using hng c hc
  unfold simulate
  simp [hfil]

/-- Witness for C2 at a concrete input: a single resistor, no ground. -/
theorem simulate_no_ground_witness :
    (simulate initState
        [{ id := 1, ctype := CompType.resistor, connectionPoints := [],
           properties := {} }] []).2 = Except.error noGroundMsg ∧
    (simulate initState
        [{ id := 1, ctype := CompType.resistor, connectionPoints := [],
           properties := {} }] []).1.simulationResults = initState.simulationResults := by
  refine simulate_no_ground initState _ [] ?_
  intro c hc
  simp at hc
  subst hc
  simp

/-! ### Claim C7 -/

/-- Claim C7: whenever `simulate` fails, the engine's cached
`simulationResults` is exactly what it was before the call: a failed run
never overwrites or clears the previous result. -/
theorem simulate_failure_preserves_cache (st : EngineState) (comps : List CComponent)
    (wires : List Wire) (e : String)
    (h : (simulate st comps wires).2 = Except.error e) :
    (simulate st comps wires).1.simulationResults = st.simulationResults := by
  unfold simulate at h ⊢
  by_cases hg : (comps.filter fun c => decide (c.ctype = CompType.ground)).isEmpty
  · simp [hg]
  · simp only [hg, Bool.false_eq_true, if_false]
    cases hs : solveCircuit (buildNetlist comps wires) with
    | error e2 => simp [hs]
    | ok r => simp [hg, hs] at h

/-- Witness for C7: the empty input fails (no ground) and the cache is kept. -/
theorem simulate_failure_preserves_cache_witness :
    (simulate initState [] []).1.simulationResults = initState.simulationResults :=
  simulate_failure_preserves_cache initState [] [] noGroundMsg rfl

/-! ### Claim C9 -/

/-- Claim C9: `simulate` is deterministic in its inputs: its returned value
is the same for any two engine states, in particular for the state left by
a first identical call, so calling twice on the same lists yields identical
results (voltages and per-component values alike). -/
theorem simulate_deterministic (st st' : EngineState) (comps : List CComponent)
    (wires : List Wire) :
    (simulate st comps wires).2 = (simulate st' comps wires).2 := by
  unfold simulate
  by_cases hg : (comps.filter fun c => decide (c.ctype = CompType.ground)).isEmpty
  · simp [hg]
  · simp only [hg, Bool.false_eq_true, if_false]
    cases hs : solveCircuit (buildNetlist comps wires) <;> simp [hs]

/-! ### Claim C10 -/

/-- Claim C10: `validateCircuit` on an engine with no cached simulation
returns invalid with the single issue string, and in every case the
validity flag is set exactly when the issue list is empty. -/
theorem validateCircuit_spec :
    (∀ st : EngineState, st.simulationResults = none →
      validateCircuit st = { isValid := false, issues := ["Circuit not simulated yet"] }) ∧
    (∀ st : EngineState,
      (validateCircuit st).isValid = true ↔ (validateCircuit st).issues = []) := by
  constructor
  · intro st h
    simp [validateCircuit, h]
  · intro st
    unfold validateCircuit
    cases st.simulationResults with
    | none => simp
    | some r => simp [List.isEmpty_iff]

/-- Witness for C10 at the fresh engine state. -/
theorem validateCircuit_spec_witness :
    validateCircuit initState = { isValid := false, issues := ["Circuit not simulated yet"] } ∧
    ((validateCircuit initState).isValid = true ↔ (validateCircuit initState).issues = []) :=
  ⟨validateCircuit_spec.1 initState rfl, validateCircuit_spec.2 initState⟩

/-! ### Claim C8 -/

/-- Claim C8: in every successful run, every resistor netlist element has
`power = voltage * current` as the very same product the code computes, and
`current = voltage / resistance` for its resistance parameter. -/
theorem resistor_power_identity (st : EngineState) (comps : List CComponent)
    (wires : List Wire) (r : SolveResult) (R : ℚ)
    (h : (simulate st comps wires).2 = Except.ok r)
    (c : NetComp) (hc : c ∈ r.netlist.components)
    (hct : c.ctype = CompType.resistor) (hR : c.properties.resistance = some R) :
    ∃ sr, c.simulationResults = some sr ∧
      sr.power = sr.voltage * sr.current ∧ sr.current = sr.voltage / R := by
  obtain ⟨res, hres, hr⟩ := simulate_ok_iff st comps wires r h
  subst hr
  obtain ⟨c0, hc0, hcc⟩ := List.mem_map.mp hc
  have hct0 : c0.ctype = CompType.resistor := by
    rw [← hcc] at hct
    exact hct
  have hR0 : c0.properties.resistance = some R := by
    rw [← hcc] at hR
    exact hR
  rw [← hcc]
  simp only [calcComp, hct0, hR0]
  exact ⟨_, rfl, rfl, by simp⟩

/-- Witness for C8: the demo resistor of the demo run. -/
theorem resistor_power_identity_witness :
    ∃ sr,
      ({ id := 1, ctype := CompType.resistor, nodes := [0, 1],
         properties := { resistance := some 100 },
         simulationResults := some ⟨0, 0, 0, [0, 0]⟩ } : NetComp).simulationResults = some sr ∧
      sr.power = sr.voltage * sr.current ∧ sr.current = sr.voltage / 100 :=
  resistor_power_identity initState demoComps [] demoResult 100 demo_simulate
    _ (by simp [demoResult]) rfl rfl


/-! ### Claim C5 -/

/-- The inner scan is a filter on unprocessed in-tolerance points. -/
lemma grab_foldl (p : APoint) (l : List (ℕ × APoint)) (g0 : List (ℕ × APoint))
    (pr0 : List ℕ) (hnd : (l.map Prod.fst).Nodup) :
    l.foldl (grabStep p) (g0, pr0) =
      (g0 ++ l.filter (isMate pr0 p), pr0 ++ (l.filter (isMate pr0 p)).map Prod.fst) := by
  induction l generalizing g0 pr0 with
  | nil => simp
  | cons q t ih =>
    have hnd' : (t.map Prod.fst).Nodup ∧ q.1 ∉ t.map Prod.fst := by
      rw [List.map_cons, List.nodup_cons] at hnd
      exact ⟨hnd.2, hnd.1⟩
    rw [List.foldl_cons]
    by_cases hq : q.1 ∈ pr0
    · have hstep : grabStep p (g0, pr0) q = (g0, pr0) := by simp [grabStep, hq]
      rw [hstep, ih _ _ hnd'.1]
      simp [List.filter_cons, isMate, hq]
    · by_cases hw : withinTol p q.2
      · have hstep : grabStep p (g0, pr0) q = (g0 ++ [q], pr0 ++ [q.1]) := by
          simp [grabStep, hq, hw]
        rw [hstep, ih _ _ hnd'.1]
        have hfeq : t.filter (isMate (pr0 ++ [q.1]) p) = t.filter (isMate pr0 p) := by
          apply List.filter_congr
          intro r hr
          have hne : r.1 ≠ q.1 := by
            intro he
            exact hnd'.2 (he ▸ List.mem_map_of_mem Prod.fst hr)
          simp [isMate, List.mem_append, hne]
        rw [hfeq]
        simp [List.filter_cons, isMate, hq, hw]
      · have hstep : grabStep p (g0, pr0) q = (g0, pr0) := by simp [grabStep, hq, hw]
        rw [hstep, ih _ _ hnd'.1]
        simp [List.filter_cons, isMate, hq, hw]

/-- Every produced group is its seed followed by points within tolerance of
that seed only. -/
lemma clusterGo_seed (all : List (ℕ × APoint)) (hnd : (all.map Prod.fst).Nodup) :
    ∀ todo pr, ∀ g ∈ clusterGo all todo pr, ∃ s mates,
      g = s :: mates ∧ ∀ q ∈ mates, withinTol s.2 q.2 = true := by
  intro todo
  induction todo with
  | nil => intro pr g hg; simp [clusterGo] at hg
  | cons ip rest ih =>
    intro pr g hg
    rw [clusterGo] at hg
    by_cases hip : ip.1 ∈ pr
    · rw [if_pos hip] at hg
      exact ih pr g hg
    · rw [if_neg hip] at hg
      rw [grab_foldl _ _ _ _ hnd] at hg
      rcases List.mem_cons.mp hg with hg1 | hg2
      · refine ⟨ip, all.filter (isMate (pr ++ [ip.1]) ip.2), by simpa using hg1, ?_⟩
        intro q hq
        have := List.of_mem_filter hq
        simp [isMate] at this
        exact this.2
      · exact ih _ g hg2

/-- Splitting a nodup filter along a nodup sublist of fresh elements. -/
lemma filter_perm_split (L S pr : List ℕ) (hL : L.Nodup) (hS : S.Nodup)
    (hSL : ∀ s ∈ S, s ∈ L) (hSpr : ∀ s ∈ S, s ∉ pr) :
    List.Perm (L.filter fun j => decide (j ∉ pr))
      (S ++ L.filter fun j => decide (j ∉ pr ++ S)) := by
  induction S generalizing pr with
  | nil => simp
  | cons s S' ih =>
    have hsL : s ∈ L := hSL s (by simp)
    have hspr : s ∉ pr := hSpr s (by simp)
    have hmem : s ∈ L.filter fun j => decide (j ∉ pr) := by
      rw [List.mem_filter]
      exact ⟨hsL, by simpa using hspr⟩
    have hp1 : List.Perm (L.filter fun j => decide (j ∉ pr))
        (s :: (L.filter fun j => decide (j ∉ pr)).erase s) :=
      List.perm_cons_erase hmem
    have herase : (L.filter fun j => decide (j ∉ pr)).erase s =
        L.filter fun j => decide (j ∉ pr ++ [s]) := by
      rw [List.Nodup.erase_eq_filter (hL.filter _), List.filter_filter]
      apply List.filter_congr
      intro a _
      by_cases has : a = s <;> by_cases hap : a ∈ pr <;>
        simp [has, hap, List.mem_append]
    have hS'nd : S'.Nodup := (List.nodup_cons.mp hS).2
    have hsS' : s ∉ S' := (List.nodup_cons.mp hS).1
    have ih' := ih (pr ++ [s]) hS'nd (fun x hx => hSL x (by simp [hx]))
      (fun x hx => by
        have hxpr : x ∉ pr := hSpr x (by simp [hx])
        have hxs : x ≠ s := fun he => hsS' (he ▸ hx)
        simp [List.mem_append, hxpr, hxs])
    have hassoc : (pr ++ [s]) ++ S' = pr ++ (s :: S') := by simp
    rw [hassoc] at ih'
    refine hp1.trans ?_
    rw [herase, List.cons_append]
    exact ih'.cons s

/-- The groups partition the point indices: their flattened index lists are
a permutation of the unprocessed indices of `all`. -/
lemma clusterGo_partition (all : List (ℕ × APoint)) (hnd : (all.map Prod.fst).Nodup) :
    ∀ todo pr, (∀ q ∈ todo, q ∈ all) →
      (∀ j ∈ all.map Prod.fst, j ∉ pr → j ∈ todo.map Prod.fst) →
      List.Perm ((clusterGo all todo pr).map (fun g => g.map Prod.fst)).flatten
        ((all.map Prod.fst).filter fun j => decide (j ∉ pr)) := by
  intro todo
  induction todo with
  | nil =>
    intro pr _ hcov
    rw [clusterGo]
    have : ((all.map Prod.fst).filter fun j => decide (j ∉ pr)) = [] := by
      rw [List.filter_eq_nil_iff]
      intro j hj
      simp only [decide_eq_true_eq, Decidable.not_not]
      by_contra hnot
      exact (by simpa using hcov j hj (by simpa using hnot))
    rw [this]
    simp
  | cons ip rest ih =>
    intro pr hsub hcov
    rw [clusterGo]
    by_cases hip : ip.1 ∈ pr
    · rw [if_pos hip]
      refine ih pr (fun q hq => hsub q (by simp [hq])) ?_
      intro j hj hjpr
      rcases List.mem_cons.mp (hcov j hj hjpr) with he | hm
      · exact absurd (he ▸ hip) hjpr
      · exact hm
    · rw [if_neg hip]
      rw [grab_foldl _ _ _ _ hnd]
      set mates := all.filter (isMate (pr ++ [ip.1]) ip.2) with hmates
      set S : List ℕ := ip.1 :: mates.map Prod.fst with hS
      have hprS : (pr ++ [ip.1]) ++ mates.map Prod.fst = pr ++ S := by simp [hS]
      have hmfst_sub : ∀ j ∈ mates.map Prod.fst, j ∈ all.map Prod.fst := by
        intro j hj
        obtain ⟨q, hq, hqj⟩ := List.mem_map.mp hj
        exact hqj ▸ List.mem_map_of_mem Prod.fst (List.mem_of_mem_filter hq)
      have hmfst_nd : (mates.map Prod.fst).Nodup := by
        have hsl : mates.Sublist all := List.filter_sublist all
        exact (hsl.map Prod.fst).nodup hnd
      have hmfst_fresh : ∀ j ∈ mates.map Prod.fst, j ∉ pr ++ [ip.1] := by
        intro j hj
        obtain ⟨q, hq, hqj⟩ := List.mem_map.mp hj
        have := List.of_mem_filter hq
        simp only [isMate, Bool.and_eq_true, decide_eq_true_eq] at this
        exact hqj ▸ this.1
      have hSnd : S.Nodup := by
        rw [hS, List.nodup_cons]
        refine ⟨fun hin => ?_, hmfst_nd⟩
        exact hmfst_fresh ip.1 hin (by simp)
      have hSL : ∀ s ∈ S, s ∈ all.map Prod.fst := by
        intro s hs
        rcases List.mem_cons.mp hs with he | hm
        · exact he ▸ List.mem_map_of_mem Prod.fst (hsub ip (by simp))
        · exact hmfst_sub s hm
      have hSpr : ∀ s ∈ S, s ∉ pr := by
        intro s hs
        rcases List.mem_cons.mp hs with he | hm
        · exact he ▸ hip
        · intro hin
          exact hmfst_fresh s hm (by simp [hin])
      have hihrest := ih ((pr ++ [ip.1]) ++ mates.map Prod.fst)
        (fun q hq => hsub q (by simp [hq]))
        (by
          intro j hj hjpr
          rw [hprS] at hjpr
          have hjpr0 : j ∉ pr := fun hin => hjpr (by simp [hin])
          have hjS : j ∉ S := fun hin => hjpr (by simp [hin])
          rcases List.mem_cons.mp (hcov j hj hjpr0) with he | hm
          · exact absurd (he ▸ (by simp [hS] : ip.1 ∈ S)) (he ▸ hjS)
          · exact hm)
      rw [hprS] at hihrest
      have hsplit := filter_perm_split (all.map Prod.fst) S pr hnd hSnd hSL hSpr
      refine List.Perm.symm (hsplit.trans ?_)
      rw [List.map_cons, List.flatten_cons]
      dsimp only
      simp only [List.singleton_append, List.map_cons]
      rw [hprS]
      have hhead : ip.1 :: mates.map Prod.fst = S := by rw [hS]
      rw [hhead]
      exact (hihrest.symm.append_left S)

/-- A point is always within tolerance of itself. -/
lemma withinTol_self (p : APoint) : withinTol p p = true := by
  simp only [withinTol, decide_eq_true_eq]
  norm_num

/-- Claim C5: clustering is single-seed with tolerance 15: every member of
a produced group is within distance 15 of the group's seed (its first
element, the unprocessed point that started it), every input point lands in
exactly one group (the group index lists partition the point indices), and
two points each within 15 of the seed are grouped with it even when they
are more than 15 apart from each other (witnessed at (0,0), (14,0),
(-14,0): the outer points are 28 apart). -/
theorem clustering_single_seed (pts : List APoint) :
    (∀ g ∈ buildGroups pts, ∃ s, g.head? = some s ∧
      ∀ q ∈ g, withinTol s.2 q.2 = true) ∧
    List.Perm ((buildGroups pts).map fun g => g.map Prod.fst).flatten
      (List.range pts.length) ∧
    (buildGroups [⟨0, 0, false⟩, ⟨14, 0, false⟩, ⟨-14, 0, false⟩] =
       [[(0, ⟨0, 0, false⟩), (1, ⟨14, 0, false⟩), (2, ⟨-14, 0, false⟩)]] ∧
     withinTol ⟨14, 0, false⟩ ⟨-14, 0, false⟩ = false) := by
  have hnd : (pts.enum.map Prod.fst).Nodup := by
    rw [List.enum_map_fst]
    exact List.nodup_range _
  refine ⟨?_, ?_, ?_, ?_⟩
  · intro g hg
    obtain ⟨s, mates, hgeq, hmates⟩ := clusterGo_seed pts.enum hnd pts.enum [] g hg
    refine ⟨s, by rw [hgeq]; rfl, ?_⟩
    intro q hq
    rw [hgeq] at hq
    rcases List.mem_cons.mp hq with he | hm
    · rw [he]
      exact withinTol_self s.2
    · exact hmates q hm
  · have hpart := clusterGo_partition pts.enum hnd pts.enum []
      (fun q hq => hq) (fun j hj _ => hj)
    have hfil : ((pts.enum.map Prod.fst).filter fun j => decide (j ∉ ([] : List ℕ))) =
        pts.enum.map Prod.fst := by
      apply List.filter_eq_self.mpr
      intro a _
      simp
    rw [hfil, List.enum_map_fst] at hpart
    exact hpart
  · norm_num [buildGroups, clusterGo, grabStep, withinTol, List.enum, List.enumFrom]
  · norm_num [withinTol]

/-- Witness for C5: the three-point instance, with the seed group grabbed
through the claim theorem itself. -/
theorem clustering_single_seed_witness :
    ∃ s, ([(0, (⟨0, 0, false⟩ : APoint)), (1, ⟨14, 0, false⟩),
           (2, ⟨-14, 0, false⟩)]).head? = some s ∧
      ∀ q ∈ [(0, (⟨0, 0, false⟩ : APoint)), (1, ⟨14, 0, false⟩), (2, ⟨-14, 0, false⟩)],
        withinTol s.2 q.2 = true :=
  (clustering_single_seed [⟨0, 0, false⟩, ⟨14, 0, false⟩, ⟨-14, 0, false⟩]).1 _
    (by
      rw [(clustering_single_seed [⟨0, 0, false⟩, ⟨14, 0, false⟩, ⟨-14, 0, false⟩]).2.2.1]
      exact List.mem_singleton_self _)


/-! ### Claim C3 -/


/-- `getD` after `set`. -/
lemma getD_set {α : Type} (l : List α) (i : ℕ) (a : α) (j : ℕ) (d : α) :
    (l.set i a).getD j d = if i = j ∧ i < l.length then a else l.getD j d := by
  rw [List.getD_eq_getElem?_getD, List.getD_eq_getElem?_getD, List.getElem?_set]
  by_cases hij : i = j
  · subst hij
    by_cases hil : i < l.length
    · simp [hil]
    · have hnone : l[i]? = none := List.getElem?_eq_none (le_of_not_lt hil)
      simp [hil, hnone]
  · simp [hij]

/-- Entry read after `updAdd`: only entry `(i, j)` changes, by `+ d`. -/
lemma entry_updAdd (M : Mat) (i j : ℕ) (d : ℚ) (k l : ℕ)
    (hi : i < M.length) (hj : j < (M.getD i []).length) :
    entry (updAdd M i j d) k l = entry M k l + if k = i ∧ l = j then d else 0 := by
  unfold updAdd entry
  rw [getD_set]
  by_cases hik : i = k
  · subst hik
    rw [if_pos ⟨rfl, hi⟩, getD_set]
    by_cases hjl : j = l
    · subst hjl
      rw [if_pos ⟨rfl, hj⟩, if_pos ⟨rfl, rfl⟩]
    · rw [if_neg (fun h => hjl h.1), if_neg (fun h => hjl h.2.symm), add_zero]
  · rw [if_neg (fun h => hik h.1), if_neg (fun h => hik h.1.symm), add_zero]

/-- `updAdd` preserves the length of every row. -/
lemma updAdd_row_length (M : Mat) (i j : ℕ) (d : ℚ) (k : ℕ) :
    ((updAdd M i j d).getD k []).length = (M.getD k []).length := by
  unfold updAdd
  rw [getD_set]
  by_cases hik : i = k
  · subst hik
    by_cases hil : i < M.length
    · rw [if_pos ⟨rfl, hil⟩]
      simp
    · rw [if_neg (fun h => hil h.2)]
  · rw [if_neg (fun h => hik h.1)]



/-- Rows of a well-formed matrix read back with length `n`. -/
lemma row_length_of_forall (G : Mat) (n : ℕ) (hdim : G.length = n)
    (hrow : ∀ row ∈ G, row.length = n) (k : ℕ) (hk : k < n) :
    (G.getD k []).length = n := by
  have hkl : k < G.length := by omega
  rw [List.getD_eq_getElem?_getD, List.getElem?_eq_getElem hkl]
  exact hrow _ (List.getElem_mem hkl)

/-- Claim C3: the resistor stamp adds `g = 1/R` to `G[a][a]` and `G[b][b]`
for each non-ground node among `a`, `b`, subtracts `g` from `G[a][b]` and
`G[b][a]` exactly when both are non-ground (matrix indices are node id
minus 1), and leaves the current vector `I` untouched. -/
theorem addResistor_stamps (G : Mat) (I : Vec) (comp : NetComp) (n a b : ℕ) (R : ℚ)
    (hnodes : comp.nodes = [a, b]) (hR : comp.properties.resistance = some R)
    (hR0 : R ≠ 0) (hdim : G.length = n) (hrow : ∀ row ∈ G, row.length = n)
    (ha : a ≤ n) (hb : b ≤ n) :
    (addResistor G I comp).2 = I ∧
    ∀ k l, k < n → l < n →
      entry (addResistor G I comp).1 k l =
        entry G k l
        + (if 0 < a ∧ k = a - 1 ∧ l = a - 1 then 1 / R else 0)
        + (if 0 < b ∧ k = b - 1 ∧ l = b - 1 then 1 / R else 0)
        - (if 0 < a ∧ 0 < b ∧ k = a - 1 ∧ l = b - 1 then 1 / R else 0)
        - (if 0 < a ∧ 0 < b ∧ k = b - 1 ∧ l = a - 1 then 1 / R else 0) := by
  have hcond : 1 / jsOr comp.properties.resistance 1000 = 1 / R := by
    simp [jsOr, hR, hR0]
  constructor
  · rfl
  · intro k l hk hl
    have hGrow := row_length_of_forall G n hdim hrow
    unfold addResistor
    simp only [hnodes, List.getD_cons_zero, List.getD_cons_succ, hcond]
    by_cases hA : 0 < a <;> by_cases hB : 0 < b
    · have ha1 : a - 1 < n := by omega
      have hb1 : b - 1 < n := by omega
      rw [if_pos hA, if_pos hB, if_pos ⟨hA, hB⟩]
      have h1len : (updAdd G (a-1) (a-1) (1/R)).length = n := by
        rw [updAdd_length, hdim]
      have h2len : (updAdd (updAdd G (a-1) (a-1) (1/R)) (b-1) (b-1) (1/R)).length = n := by
        rw [updAdd_length, h1len]
      have h3len : (updAdd (updAdd (updAdd G (a-1) (a-1) (1/R)) (b-1) (b-1) (1/R))
          (a-1) (b-1) (-(1/R))).length = n := by
        rw [updAdd_length, h2len]
      rw [entry_updAdd _ _ _ _ _ _ (by omega)
            (by rw [updAdd_row_length, updAdd_row_length, updAdd_row_length, hGrow _ hb1]; omega),
          entry_updAdd _ _ _ _ _ _ (by omega)
            (by rw [updAdd_row_length, updAdd_row_length, hGrow _ ha1]; omega),
          entry_updAdd _ _ _ _ _ _ (by omega)
            (by rw [updAdd_row_length, hGrow _ hb1]; omega),
          entry_updAdd _ _ _ _ _ _ (by omega) (by rw [hGrow _ ha1]; omega)]
      simp only [hA, hB, true_and]
      split_ifs <;> ring
    · have ha1 : a - 1 < n := by omega
      rw [if_pos hA, if_neg (by omega : ¬b > 0), if_neg (fun h => hB h.2)]
      rw [entry_updAdd _ _ _ _ _ _ (by omega) (by rw [hGrow _ ha1]; omega)]
      simp only [hA, hB, true_and, false_and, and_false, if_false]
      ring
    · have hb1 : b - 1 < n := by omega
      rw [if_neg (by omega : ¬a > 0), if_pos hB, if_neg (fun h => hA h.1)]
      rw [entry_updAdd _ _ _ _ _ _ (by omega) (by rw [hGrow _ hb1]; omega)]
      simp only [hA, hB, true_and, false_and, and_false, if_false]
      ring
    · rw [if_neg (by omega : ¬a > 0), if_neg (by omega : ¬b > 0),
        if_neg (fun h => hA h.1)]
      simp only [hA, hB, false_and, if_false]
      ring



/-- Witness for C3: stamping a 100 Ω resistor on nodes (0, 1) into the
1 x 1 zero system. -/
theorem addResistor_stamps_witness :
    (addResistor [[0]] [0]
      { id := 1, ctype := CompType.resistor, nodes := [0, 1],
        properties := { resistance := some 100 }, simulationResults := none }).2 = [0] ∧
    entry (addResistor [[0]] [0]
      { id := 1, ctype := CompType.resistor, nodes := [0, 1],
        properties := { resistance := some 100 }, simulationResults := none }).1 0 0 =
      entry [[0]] 0 0
      + (if 0 < 0 ∧ 0 = 0 - 1 ∧ 0 = 0 - 1 then 1 / (100 : ℚ) else 0)
      + (if 0 < 1 ∧ 0 = 1 - 1 ∧ 0 = 1 - 1 then 1 / 100 else 0)
      - (if 0 < 0 ∧ 0 < 1 ∧ 0 = 0 - 1 ∧ 0 = 1 - 1 then 1 / 100 else 0)
      - (if 0 < 0 ∧ 0 < 1 ∧ 0 = 1 - 1 ∧ 0 = 0 - 1 then 1 / 100 else 0) :=
  ⟨(addResistor_stamps [[0]] [0] _ 1 0 1 100 rfl rfl (by norm_num) rfl
      (by intro row hr; simp at hr; simp [hr]) (by omega) (by omega)).1,
   (addResistor_stamps [[0]] [0] _ 1 0 1 100 rfl rfl (by norm_num) rfl
      (by intro row hr; simp at hr; simp [hr]) (by omega) (by omega)).2 0 0
      (by omega) (by omega)⟩


/-! ### Claim C6 -/


/-- Filtering out another key leaves a lookup unchanged. -/
lemma find?_filter_ne (m : NodeMap) (k q : Key) (h : q ≠ k) :
    ((m.filter fun e => !decide (e.1 = k)).find? fun e => decide (e.1 = q)) =
      m.find? fun e => decide (e.1 = q) := by
  induction m with
  | nil => rfl
  | cons e t ih =>
    rw [List.filter_cons]
    by_cases hek : e.1 = k
    · have heq : ¬e.1 = q := fun hq => h (hq ▸ hek ▸ rfl)
      rw [if_neg (by simp [hek])]
      rw [List.find?_cons_of_neg _ (by simp [heq])]
      exact ih
    · rw [if_pos (by simp [hek])]
      by_cases heq : e.1 = q
      · rw [List.find?_cons_of_pos _ (by simp [heq]),
            List.find?_cons_of_pos _ (by simp [heq])]
      · rw [List.find?_cons_of_neg _ (by simp [heq]),
            List.find?_cons_of_neg _ (by simp [heq])]
        exact ih

/-- Lookup after `mset`. -/
lemma mget_mset (m : NodeMap) (k : Key) (v : ℕ) (q : Key) :
    mget (mset m k v) q = if q = k then some v else mget m q := by
  unfold mget mset
  by_cases h : q = k
  · subst h
    rw [List.find?_cons_of_pos _ (by simp), if_pos rfl]
    rfl
  · rw [List.find?_cons_of_neg _ (by simp; exact fun he => h he.symm), if_neg h,
      find?_filter_ne m k q h]

/-- All values written by the ground pass fold are 0. -/
lemma foldl_mset_zero_values (l : List (ℕ × APoint)) (m : NodeMap)
    (hm : ∀ q v, mget m q = some v → v = 0) :
    ∀ q v, mget (l.foldl (fun m r => mset m r.2.key 0) m) q = some v → v = 0 := by
  induction l generalizing m with
  | nil => exact hm
  | cons r t ih =>
    rw [List.foldl_cons]
    refine ih _ ?_
    intro q v hq
    rw [mget_mset] at hq
    by_cases h : q = r.2.key
    · rw [if_pos h] at hq
      exact (Option.some_inj.mp hq).symm
    · rw [if_neg h] at hq
      exact hm q v hq

/-- A binding to 0 survives the ground pass fold. -/
lemma foldl_mset_zero_keeps (l : List (ℕ × APoint)) (m : NodeMap) (k : Key)
    (hk : mget m k = some 0) :
    mget (l.foldl (fun m r => mset m r.2.key 0) m) k = some 0 := by
  induction l generalizing m with
  | nil => exact hk
  | cons r t ih =>
    rw [List.foldl_cons]
    refine ih _ ?_
    rw [mget_mset]
    by_cases h : k = r.2.key
    · rw [if_pos h]
    · rw [if_neg h]
      exact hk

/-- Every key of the folded group ends bound to 0. -/
lemma foldl_mset_zero_present (l : List (ℕ × APoint)) (m : NodeMap)
    (q : ℕ × APoint) (hq : q ∈ l) :
    mget (l.foldl (fun m r => mset m r.2.key 0) m) q.2.key = some 0 := by
  induction l generalizing m with
  | nil => simp at hq
  | cons r t ih =>
    rw [List.foldl_cons]
    rcases List.mem_cons.mp hq with he | hm2
    · subst he
      exact foldl_mset_zero_keeps t _ _ (by rw [mget_mset, if_pos rfl])
    · exact ih _ hm2

/-- Unfolding of one `assignStep` application. -/
lemma assignStep_eq (m0 : NodeMap) (s : ℕ) (g : List (ℕ × APoint)) :
    assignStep (m0, s) g =
      if hasGroundPoint g then (m0, s)
      else
        (g.foldl (fun m q => if (mget m q.2.key).isSome then m else mset m q.2.key s) m0,
         s + 1) := by
  unfold assignStep
  by_cases hg : hasGroundPoint g <;> simp [hg]

/-- One ground-free group step preserves an existing binding. -/
lemma groupFold_preserves (g : List (ℕ × APoint)) (m0 : NodeMap) (s : ℕ)
    (k : Key) (v : ℕ) (h : mget m0 k = some v) :
    mget (g.foldl (fun m q => if (mget m q.2.key).isSome then m
      else mset m q.2.key s) m0) k = some v := by
  induction g generalizing m0 with
  | nil => exact h
  | cons r rt ihg =>
    rw [List.foldl_cons]
    by_cases hs : (mget m0 r.2.key).isSome
    · rw [if_pos hs]
      exact ihg _ h
    · rw [if_neg hs]
      refine ihg _ ?_
      rw [mget_mset]
      by_cases hk : k = r.2.key
      · subst hk
        rw [h] at hs
        simp at hs
      · rw [if_neg hk]
        exact h

/-- The second pass never overwrites an existing binding. -/
lemma assignPass_preserves (groups : List (List (ℕ × APoint))) (m0 : NodeMap)
    (s : ℕ) (k : Key) (v : ℕ) (h : mget m0 k = some v) :
    mget (assignPass groups m0 s).1 k = some v := by
  unfold assignPass
  induction groups generalizing m0 s with
  | nil => exact h
  | cons g t ih =>
    rw [List.foldl_cons, assignStep_eq]
    by_cases hg : hasGroundPoint g
    · rw [if_pos hg]
      exact ih _ _ h
    · rw [if_neg hg]
      exact ih _ _ (groupFold_preserves g m0 s k v h)

/-- One ground-free group step does not touch a key foreign to the group. -/
lemma groupFold_no_new (g : List (ℕ × APoint)) (m0 : NodeMap) (s : ℕ) (k : Key)
    (hkeys : ∀ r ∈ g, r.2.key ≠ k) :
    mget (g.foldl (fun m q => if (mget m q.2.key).isSome then m
      else mset m q.2.key s) m0) k = mget m0 k := by
  induction g generalizing m0 with
  | nil => rfl
  | cons r rt ihg =>
    rw [List.foldl_cons]
    have hr : r.2.key ≠ k := hkeys r (by simp)
    by_cases hs : (mget m0 r.2.key).isSome
    · rw [if_pos hs]
      exact ihg _ (fun x hx => hkeys x (by simp [hx]))
    · rw [if_neg hs]
      rw [ihg _ (fun x hx => hkeys x (by simp [hx]))]
      rw [mget_mset, if_neg (fun he => hr he.symm)]

/-- If a key occurs in no ground-free group, the second pass leaves its
binding exactly as the ground pass produced it. -/
lemma assignPass_no_new (groups : List (List (ℕ × APoint))) (m0 : NodeMap)
    (s : ℕ) (k : Key)
    (h : ∀ g ∈ groups, hasGroundPoint g = false → ∀ r ∈ g, r.2.key ≠ k) :
    mget (assignPass groups m0 s).1 k = mget m0 k := by
  unfold assignPass
  induction groups generalizing m0 s with
  | nil => rfl
  | cons g t ih =>
    rw [List.foldl_cons, assignStep_eq]
    by_cases hg : hasGroundPoint g
    · rw [if_pos hg]
      exact ih _ _ (fun g2 hg2 => h g2 (by simp [hg2]))
    · rw [if_neg hg]
      rw [ih _ _ (fun g2 hg2 => h g2 (by simp [hg2]))]
      exact groupFold_no_new g m0 s k (h g (by simp) (by simpa using hg))



/-- Unfolding of `netlistAssign`. -/
lemma netlistAssign_eq (comps : List CComponent) (wires : List Wire) :
    netlistAssign comps wires =
      assignPass (buildGroups (allPoints comps wires))
        (groundPass (buildGroups (allPoints comps wires)))
        (if (buildGroups (allPoints comps wires)).any hasGroundPoint then 1 else 0) := rfl

/-- The ground pass binds values 0 only. -/
lemma groundPass_values (groups : List (List (ℕ × APoint))) (k : Key) (v : ℕ)
    (h : mget (groundPass groups) k = some v) : v = 0 := by
  unfold groundPass at h
  cases hf : groups.find? hasGroundPoint with
  | none =>
    rw [hf] at h
    simp [mget] at h
  | some g =>
    rw [hf] at h
    exact foldl_mset_zero_values g [] (by intro q w hw; simp [mget] at hw) k v h

/-- The clustered groups of the counterexample circuit: the first ground is
alone in the first ground cluster; the resistor terminal (10.5, 0) is
grabbed by the seed (-4.5, 0); cexR3's terminal (11, 0) shares a cluster
with the second ground terminal. -/
lemma cex_groups :
    buildGroups (allPoints cexComps []) =
      [[(0, ⟨300, 300, true⟩)],
       [(1, ⟨-9/2, 0, false⟩), (3, ⟨21/2, 0, false⟩)],
       [(2, ⟨500, 0, false⟩)],
       [(4, ⟨600, 0, false⟩)],
       [(5, ⟨11, 0, false⟩), (7, ⟨11, 0, true⟩)],
       [(6, ⟨700, 0, false⟩)]] := by
  have hrg : (CompType.resistor = CompType.ground) = False := by simp
  have hgg : (CompType.ground = CompType.ground) = True := by simp
  norm_num [hrg, hgg, cexComps, cexG1, cexR1, cexR2, cexR3, cexG2, buildGroups,
    allPoints, clusterGo, grabStep, withinTol, List.enum, List.enumFrom, List.flatMap]

set_option maxHeartbeats 3200000 in
/-- Node tuples of the counterexample netlist: cexR3 gets nodes [1, 4]. -/
lemma cex_netlist_nodes :
    (buildNetlist cexComps []).components.map NetComp.nodes = [[1, 2], [1, 3], [1, 4]] := by
  have hrg : (CompType.resistor = CompType.ground) = False := by simp
  have hgg : (CompType.ground = CompType.ground) = True := by simp
  norm_num [hrg, hgg, ne_eq, cexComps, cexG1, cexR1, cexR2, cexR3, cexG2, buildNetlist,
    netlistAssign, buildGroups, allPoints, clusterGo, grabStep, withinTol, groundPass,
    assignPass, assignStep, hasGroundPoint, mset, mget, APoint.key, Pt.key, pkeyXY,
    jsRound, resolveNode, List.enum, List.enumFrom, List.filter, List.find?, List.flatMap]

/-- Counterexample to C6 as stated: in `cexComps` (two grounds, three
resistors, all well within the model), the terminal (11, 0) of the
non-ground resistor cexR3 lies in the same cluster as the terminal of the
second ground component cexG2 — see the fifth group — yet the netlist maps
it to node 1, not 0: the rounded key (11, 0) was already taken by the
ground-free cluster containing (10.5, 0).  The ground terminal itself also
resolves to 1, so neither "every ground terminal maps to node 0" nor
"every terminal clustered with a ground terminal resolves to node 0" holds. -/
theorem groundNode_counterexample :
    buildGroups (allPoints cexComps []) =
      [[(0, ⟨300, 300, true⟩)],
       [(1, ⟨-9/2, 0, false⟩), (3, ⟨21/2, 0, false⟩)],
       [(2, ⟨500, 0, false⟩)],
       [(4, ⟨600, 0, false⟩)],
       [(5, ⟨11, 0, false⟩), (7, ⟨11, 0, true⟩)],
       [(6, ⟨700, 0, false⟩)]] ∧
    hasGroundPoint [(5, (⟨11, 0, false⟩ : APoint)), (7, ⟨11, 0, true⟩)] = true ∧
    cexR3.ctype ≠ CompType.ground ∧
    (⟨11, 0⟩ : Pt) ∈ cexR3.connectionPoints ∧
    (buildNetlist cexComps []).components.map NetComp.nodes = [[1, 2], [1, 3], [1, 4]] :=
  ⟨cex_groups, by simp [hasGroundPoint], by simp [cexR3], by simp [cexR3],
   cex_netlist_nodes⟩

/-- Claim C6 (amended): every terminal in the first ground-containing
cluster resolves to node 0, and a terminal of any ground-containing
cluster whose rounded-coordinate key appears in no ground-free cluster
also resolves to node 0. -/
theorem groundNode_amended (comps : List CComponent) (wires : List Wire) :
    (∀ g, (buildGroups (allPoints comps wires)).find? hasGroundPoint = some g →
      ∀ q ∈ g, (mget (netlistAssign comps wires).1 q.2.key).getD 0 = 0) ∧
    (∀ g ∈ buildGroups (allPoints comps wires), hasGroundPoint g = true →
      ∀ q ∈ g,
        (∀ g2 ∈ buildGroups (allPoints comps wires), hasGroundPoint g2 = false →
          ∀ r ∈ g2, r.2.key ≠ q.2.key) →
        (mget (netlistAssign comps wires).1 q.2.key).getD 0 = 0) := by
  constructor
  · intro g hfind q hq
    have hm0 : mget (groundPass (buildGroups (allPoints comps wires))) q.2.key = some 0 := by
      unfold groundPass
      rw [hfind]
      exact foldl_mset_zero_present g [] q hq
    rw [netlistAssign_eq, assignPass_preserves _ _ _ _ _ hm0]
    rfl
  · intro g hgmem hground q hq hnocol
    rw [netlistAssign_eq, assignPass_no_new _ _ _ _ hnocol]
    cases hv : mget (groundPass (buildGroups (allPoints comps wires))) q.2.key with
    | none => rfl
    | some v =>
      rw [groundPass_values _ _ _ hv]
      rfl

/-- Witness for the amended C6: the first ground terminal of the
counterexample circuit does resolve to node 0. -/
theorem groundNode_amended_witness :
    (mget (netlistAssign cexComps []).1 (APoint.key ⟨300, 300, true⟩)).getD 0 = 0 :=
  (groundNode_amended cexComps []).1 [(0, ⟨300, 300, true⟩)]
    (by rw [cex_groups]; rfl) (0, ⟨300, 300, true⟩) (by simp)


/-! ### Claim C4 -/


/-- Row dimensions used through the solver: `n` rows of width `n + 1`. -/
def dimsM (n : ℕ) (M : Mat) : Prop :=
  M.length = n ∧ ∀ k, k < n → (M.getD k []).length = n + 1

/-- `x` satisfies every equation row of the augmented matrix `M`. -/
def SatM (n : ℕ) (M : Mat) (x : Vec) : Prop :=
  ∀ k, k < n → (∑ j in Finset.range n, entry M k j * x.getD j 0) = entry M k n

/-- Rows from `i` on have exact zeros left of column `i`. -/
def Zeros (i n : ℕ) (M : Mat) : Prop :=
  ∀ k, i ≤ k → k < n → ∀ j, j < i → entry M k j = 0

/-- Rows below `i` are upper-triangular with nonzero diagonal. -/
def Tri (i : ℕ) (M : Mat) : Prop :=
  ∀ k, k < i → (∀ j, j < k → entry M k j = 0) ∧ entry M k k ≠ 0

/-- Row read of a swap. -/
lemma swapRows_row (M : Mat) (i j : ℕ) (hi : i < M.length) (hj : j < M.length) (k : ℕ) :
    (swapRows M i j).getD k [] =
      M.getD (if k = i then j else if k = j then i else k) [] := by
  unfold swapRows
  rw [getD_set, getD_set]
  by_cases hkj : k = j
  · subst hkj
    rw [if_pos ⟨rfl, by simpa using hj⟩]
    by_cases hki : k = i
    · simp [hki]
    · simp [hki, fun h => hki (Eq.symm h)]
  · by_cases hki : k = i
    · subst hki
      rw [if_neg (fun h => hkj h.1.symm), if_pos ⟨rfl, hi⟩, if_pos rfl]
    · rw [if_neg (fun h => hkj h.1.symm), if_neg (fun h => hki h.1.symm),
        if_neg hki, if_neg hkj]

/-- Entry read of a swap. -/
lemma swapRows_entry (M : Mat) (i j : ℕ) (hi : i < M.length) (hj : j < M.length)
    (k l : ℕ) :
    entry (swapRows M i j) k l =
      entry M (if k = i then j else if k = j then i else k) l := by
  unfold entry
  rw [swapRows_row M i j hi hj]

/-- Swapping preserves the row count. -/
lemma swapRows_length (M : Mat) (i j : ℕ) : (swapRows M i j).length = M.length := by
  unfold swapRows
  simp

/-- Swapping in range preserves dimensions. -/
lemma swapRows_dims (M : Mat) (n i j : ℕ) (hd : dimsM n M) (hi : i < n) (hj : j < n) :
    dimsM n (swapRows M i j) := by
  obtain ⟨hlen, hrows⟩ := hd
  refine ⟨by rw [swapRows_length, hlen], ?_⟩
  intro k hk
  rw [swapRows_row M i j (by omega) (by omega)]
  split_ifs <;> exact hrows _ (by omega)

/-- Entry of an eliminated row. -/
lemma elimRow_getD (p r : List ℚ) (i l : ℕ) :
    (elimRow p r i).getD l 0 =
      if i ≤ l ∧ l < r.length then
        r.getD l 0 - r.getD i 0 / p.getD i 0 * p.getD l 0
      else r.getD l 0 := by
  unfold elimRow
  dsimp only
  rw [List.getD_eq_getElem?_getD, List.getElem?_map]
  by_cases hl : l < r.length
  · rw [List.getElem?_enum, List.getElem?_eq_getElem hl]
    simp only [Option.map_some', Option.getD_some]
    by_cases hi2 : i ≤ l
    · rw [if_pos hi2, if_pos ⟨hi2, hl⟩]
      simp [List.getD_eq_getElem?_getD, List.getElem?_eq_getElem hl]
    · rw [if_neg hi2, if_neg (fun h => hi2 h.1)]
      simp [List.getD_eq_getElem?_getD, List.getElem?_eq_getElem hl]
  · have henum : r.enum[l]? = none := by
      rw [List.getElem?_eq_none]
      simpa using le_of_not_lt hl
    rw [henum]
    simp [hl, List.getElem?_eq_none (le_of_not_lt hl)]

/-- Length of an eliminated row. -/
lemma elimRow_length (p r : List ℚ) (i : ℕ) : (elimRow p r i).length = r.length := by
  unfold elimRow
  simp

/-- Row read of an elimination step. -/
lemma elimStep_row (M : Mat) (i k : ℕ) (hk : k < M.length) :
    (elimStep M i).getD k [] =
      if i + 1 ≤ k then elimRow (M.getD i []) (M.getD k []) i else M.getD k [] := by
  unfold elimStep
  rw [List.getD_eq_getElem?_getD, List.getElem?_map, List.getElem?_enum,
    List.getElem?_eq_getElem hk]
  simp only [Option.map_some', Option.getD_some]
  simp [List.getD_eq_getElem?_getD, List.getElem?_eq_getElem hk]

/-- Row count of an elimination step. -/
lemma elimStep_length (M : Mat) (i : ℕ) : (elimStep M i).length = M.length := by
  unfold elimStep
  simp

/-- Elimination preserves dimensions. -/
lemma elimStep_dims (M : Mat) (n i : ℕ) (hd : dimsM n M) : dimsM n (elimStep M i) := by
  obtain ⟨hlen, hrows⟩ := hd
  refine ⟨by rw [elimStep_length, hlen], ?_⟩
  intro k hk
  rw [elimStep_row M i k (by omega)]
  split_ifs
  · rw [elimRow_length]
    exact hrows _ hk
  · exact hrows _ hk



/-- The pivot fold returns the start or a scanned index, never decreases
the recorded absolute value, and dominates every scanned entry. -/
lemma foldl_max_spec (M : Mat) (i : ℕ) (l : List ℕ) (acc : ℕ) :
    (l.foldl (fun maxRow k => if |entry M k i| > |entry M maxRow i| then k
        else maxRow) acc = acc ∨
      l.foldl (fun maxRow k => if |entry M k i| > |entry M maxRow i| then k
        else maxRow) acc ∈ l) ∧
    |entry M acc i| ≤
      |entry M (l.foldl (fun maxRow k => if |entry M k i| > |entry M maxRow i| then k
        else maxRow) acc) i| ∧
    ∀ k ∈ l, |entry M k i| ≤
      |entry M (l.foldl (fun maxRow k => if |entry M k i| > |entry M maxRow i| then k
        else maxRow) acc) i| := by
  induction l generalizing acc with
  | nil => exact ⟨Or.inl rfl, le_refl _, by simp⟩
  | cons q t ih =>
    rw [List.foldl_cons]
    obtain ⟨ihmem, ihacc, ihall⟩ := ih (if |entry M q i| > |entry M acc i| then q else acc)
    have hstep : |entry M acc i| ≤
        |entry M (if |entry M q i| > |entry M acc i| then q else acc) i| := by
      split_ifs with hgt
      · exact le_of_lt hgt
      · exact le_refl _
    have hq : |entry M q i| ≤
        |entry M (if |entry M q i| > |entry M acc i| then q else acc) i| := by
      split_ifs with hgt
      · exact le_refl _
      · exact le_of_not_lt hgt
    refine ⟨?_, le_trans hstep ihacc, ?_⟩
    · rcases ihmem with he | hm
      · rw [he]
        split_ifs with hgt
        · exact Or.inr (by simp)
        · exact Or.inl rfl
      · exact Or.inr (by simp [hm])
    · intro k hk
      rcases List.mem_cons.mp hk with he | hm
      · rw [he]
        exact le_trans hq ihacc
      · exact ihall k hm

/-- Claim-level description of `findMaxRow`: it picks an index in `[i, n)`
whose column-`i` entry has the largest absolute value over rows `i..n-1`. -/
lemma findMaxRow_spec (M : Mat) (n i : ℕ) (hi : i < n) :
    i ≤ findMaxRow M n i ∧ findMaxRow M n i < n ∧
    ∀ k, i ≤ k → k < n → |entry M k i| ≤ |entry M (findMaxRow M n i) i| := by
  unfold findMaxRow
  obtain ⟨hmem, hacc, hall⟩ := foldl_max_spec M i (List.range' (i + 1) (n - (i + 1))) i
  have hrange : ∀ k ∈ List.range' (i + 1) (n - (i + 1)), i + 1 ≤ k ∧ k < n := by
    intro k hk
    rw [List.mem_range'] at hk
    omega
  refine ⟨?_, ?_, ?_⟩
  · rcases hmem with he | hm
    · omega
    · have := hrange _ hm
      omega
  · rcases hmem with he | hm
    · omega
    · exact (hrange _ hm).2
  · intro k hk1 hk2
    by_cases hke : k = i
    · rw [hke]
      exact hacc
    · refine hall k (List.mem_range'.mpr ⟨k - (i + 1), by omega, by omega⟩)

/-- The only failure the solver produces is the singular-pivot message. -/
lemma forwardAux_error (n : ℕ) :
    ∀ fuel i M e, forwardAux n i fuel M = Except.error e → e = singularMsg := by
  intro fuel
  induction fuel with
  | zero => intro i M e h; simp [forwardAux] at h
  | succ f ih =>
    intro i M e h
    rw [forwardAux] at h
    split_ifs at h with hp
    · exact (Except.error.injEq _ _ ▸ h).symm ▸ rfl
    · exact ih _ _ _ h

/-- A solution of the swapped system solves the original system. -/
lemma SatM_swap (M : Mat) (n i j : ℕ) (hlen : M.length = n) (hi : i < n) (hj : j < n)
    (x : Vec) (h : SatM n (swapRows M i j) x) : SatM n M x := by
  intro k hk
  have htlt : (if k = i then j else if k = j then i else k) < n := by
    split_ifs <;> omega
  have hh := h (if k = i then j else if k = j then i else k) htlt
  have hsw : ∀ a l, entry (swapRows M i j) a l =
      entry M (if a = i then j else if a = j then i else a) l :=
    fun a l => swapRows_entry M i j (by omega) (by omega) a l
  simp only [hsw] at hh
  have hback : (if (if k = i then j else if k = j then i else k) = i then j
      else if (if k = i then j else if k = j then i else k) = j then i
      else if k = i then j else if k = j then i else k) = k := by
    split_ifs <;> omega
  rw [hback] at hh
  exact hh



/-- A solution of the eliminated system solves the pre-elimination system,
provided the pivot row has exact zeros left of the pivot column. -/
lemma SatM_elim (M : Mat) (n i : ℕ) (hd : dimsM n M) (hi : i < n)
    (hzero : ∀ j, j < i → entry M i j = 0) (x : Vec)
    (h : SatM n (elimStep M i) x) : SatM n M x := by
  have hlen : M.length = n := hd.1
  have hrow_keep : ∀ k, k < n → k ≤ i → ∀ l, entry (elimStep M i) k l = entry M k l := by
    intro k hk hki l
    unfold entry
    rw [elimStep_row M i k (by omega), if_neg (by omega)]
  intro k hk
  by_cases hki : k ≤ i
  · have hh := h k hk
    simp only [hrow_keep k hk hki] at hh
    exact hh
  · push_neg at hki
    have hEqI := h i (by omega)
    simp only [hrow_keep i (by omega) (le_refl i)] at hEqI
    have hEqK := h k hk
    have huni : ∀ j, j ≤ n →
        entry (elimStep M i) k j =
          entry M k j - entry M k i / entry M i i * entry M i j := by
      intro j hj
      have hstep : entry (elimStep M i) k j =
          (elimRow (M.getD i []) (M.getD k []) i).getD j 0 := by
        unfold entry
        rw [elimStep_row M i k (by omega), if_pos (by omega)]
      rw [hstep, elimRow_getD]
      by_cases hij : i ≤ j
      · rw [if_pos ⟨hij, by rw [hd.2 k hk]; omega⟩]
        rfl
      · rw [if_neg (fun hc => hij hc.1)]
        push_neg at hij
        rw [hzero j hij, mul_zero, sub_zero]
        rfl
    have hL : (∑ j in Finset.range n, entry (elimStep M i) k j * x.getD j 0) =
        ∑ j in Finset.range n,
          (entry M k j - entry M k i / entry M i i * entry M i j) * x.getD j 0 :=
      Finset.sum_congr rfl
        (fun j hj => by rw [huni j (le_of_lt (Finset.mem_range.mp hj))])
    rw [hL, huni n (le_refl n)] at hEqK
    have hexp : (∑ j in Finset.range n,
        (entry M k j - entry M k i / entry M i i * entry M i j) * x.getD j 0) =
        (∑ j in Finset.range n, entry M k j * x.getD j 0) -
          entry M k i / entry M i i *
            ∑ j in Finset.range n, entry M i j * x.getD j 0 := by
      rw [Finset.mul_sum, ← Finset.sum_sub_distrib]
      exact Finset.sum_congr rfl (fun j _ => by ring)
    rw [hexp, hEqI] at hEqK
    linarith [hEqK]



/-- Invariant proof for forward elimination: a successful run yields an
upper-triangular matrix with nonzero (in fact above-threshold) diagonal
whose solutions solve the input system. -/
lemma forward_correct (n : ℕ) :
    ∀ fuel i M M', fuel = n - i → i ≤ n → dimsM n M → Zeros i n M → Tri i M →
      forwardAux n i fuel M = Except.ok M' →
      dimsM n M' ∧ Tri n M' ∧ ∀ x, SatM n M' x → SatM n M x := by
  intro fuel
  induction fuel with
  | zero =>
    intro i M M' hfuel hin hd hz ht hrun
    have hieq : i = n := by omega
    rw [forwardAux] at hrun
    have hMM : M = M' := by simpa using hrun
    subst hMM
    exact ⟨hd, hieq ▸ ht, fun x hx => hx⟩
  | succ f ih =>
    intro i M M' hfuel hin hd hz ht hrun
    have hilt : i < n := by omega
    obtain ⟨hmr1, hmr2, hmrmax⟩ := findMaxRow_spec M n i hilt
    rw [forwardAux] at hrun
    by_cases hp : |entry (swapRows M i (findMaxRow M n i)) i i| < pivotEps
    · rw [if_pos hp] at hrun
      exact absurd hrun (by simp)
    · rw [if_neg hp] at hrun
      have hd1 : dimsM n (swapRows M i (findMaxRow M n i)) :=
        swapRows_dims M n i _ hd hilt hmr2
      have hz1 : Zeros i n (swapRows M i (findMaxRow M n i)) := by
        intro k hik hkn j hj
        rw [swapRows_entry M i _ (by rw [hd.1]; omega) (by rw [hd.1]; omega)]
        split_ifs with h1 h2
        · exact hz _ hmr1 hmr2 j hj
        · exact hz i (le_refl i) hilt j hj
        · exact hz k hik hkn j hj
      have ht1 : Tri i (swapRows M i (findMaxRow M n i)) := by
        intro k hk
        have hkeep : ∀ l, entry (swapRows M i (findMaxRow M n i)) k l = entry M k l := by
          intro l
          rw [swapRows_entry M i _ (by rw [hd.1]; omega) (by rw [hd.1]; omega)]
          rw [if_neg (by omega), if_neg (by omega)]
        exact ⟨fun j hj => by rw [hkeep]; exact (ht k hk).1 j hj,
          by rw [hkeep]; exact (ht k hk).2⟩
      have hpiv0 : entry (swapRows M i (findMaxRow M n i)) i i ≠ 0 := by
        intro hq
        apply hp
        rw [hq]
        norm_num [pivotEps]
      have hd2 : dimsM n (elimStep (swapRows M i (findMaxRow M n i)) i) :=
        elimStep_dims _ n i hd1
      have hz2 : Zeros (i + 1) n (elimStep (swapRows M i (findMaxRow M n i)) i) := by
        intro k hik hkn j hj
        have hstep : entry (elimStep (swapRows M i (findMaxRow M n i)) i) k j =
            (elimRow ((swapRows M i (findMaxRow M n i)).getD i [])
              ((swapRows M i (findMaxRow M n i)).getD k []) i).getD j 0 := by
          unfold entry
          rw [elimStep_row _ i k (by rw [hd1.1]; omega), if_pos (by omega)]
        rw [hstep, elimRow_getD]
        by_cases hij : i ≤ j
        · have hji : j = i := by omega
          rw [if_pos ⟨hij, by rw [hd1.2 k hkn]; omega⟩, hji]
          have hpiv0g : (List.getD (swapRows M i (findMaxRow M n i)) i []).getD i 0 ≠ 0 :=
            hpiv0
          rw [div_mul_cancel₀ _ hpiv0g, sub_self]
        · rw [if_neg (fun hc => hij hc.1)]
          push_neg at hij
          exact hz1 k (by omega) hkn j hij
      have ht2 : Tri (i + 1) (elimStep (swapRows M i (findMaxRow M n i)) i) := by
        intro k hk
        have hkeep : ∀ l, entry (elimStep (swapRows M i (findMaxRow M n i)) i) k l =
            entry (swapRows M i (findMaxRow M n i)) k l := by
          intro l
          unfold entry
          rw [elimStep_row _ i k (by rw [hd1.1]; omega), if_neg (by omega)]
        by_cases hki : k < i
        · exact ⟨fun j hj => by rw [hkeep]; exact (ht1 k hki).1 j hj,
            by rw [hkeep]; exact (ht1 k hki).2⟩
        · have hkeq : k = i := by omega
          subst hkeq
          exact ⟨fun j hj => by rw [hkeep]; exact hz1 k (le_refl k) hilt j hj,
            by rw [hkeep]; exact hpiv0⟩
      obtain ⟨hdf, htf, hsf⟩ := ih (i + 1) _ M' (by omega) (by omega) hd2 hz2 ht2 hrun
      refine ⟨hdf, htf, ?_⟩
      intro x hx
      have h1 : SatM n (swapRows M i (findMaxRow M n i)) x :=
        SatM_elim _ n i hd1 hilt (fun j hj => hz1 i (le_refl i) hilt j hj) x (hsf x hx)
      exact SatM_swap M n i _ hd.1 hilt hmr2 x h1



/-- Unfolding of one back-substitution step. -/
lemma backSubAux_succ (M : Mat) (n m : ℕ) (xs : List ℚ) :
    backSubAux M n (m + 1) xs =
      backSubAux M n m
        ((((M.getD m []).getD n 0 -
            ((((M.getD m []).take n).drop (m + 1)).zip xs).foldl
              (fun a p => a + p.1 * p.2) 0) / (M.getD m []).getD m 0) :: xs) := rfl

/-- Accumulating fold of products equals the accumulator plus the sum. -/
lemma foldl_add_eq_sum (l : List (ℚ × ℚ)) (c : ℚ) :
    l.foldl (fun a p => a + p.1 * p.2) c = c + (l.map fun p => p.1 * p.2).sum := by
  induction l generalizing c with
  | nil => simp
  | cons p t ih =>
    rw [List.foldl_cons, ih, List.map_cons, List.sum_cons]
    ring

/-- Sum of pointwise products of two equal-length lists. -/
lemma zip_sum_eq (as : List ℚ) : ∀ bs : List ℚ, as.length = bs.length →
    ((as.zip bs).map fun p => p.1 * p.2).sum =
      ∑ j in Finset.range as.length, as.getD j 0 * bs.getD j 0 := by
  induction as with
  | nil => intro bs _; simp
  | cons a at2 ih =>
    intro bs hlen
    cases bs with
    | nil => simp at hlen
    | cons b bt =>
      rw [List.zip_cons_cons, List.map_cons, List.sum_cons, List.length_cons,
        Finset.sum_range_succ']
      rw [ih bt (by simpa using hlen)]
      simp [List.getD_cons_succ, List.getD_cons_zero]
      ring

/-- The dot-product fold of the solver in sum form. -/
lemma dot_zip (as bs : List ℚ) (h : as.length = bs.length) :
    (as.zip bs).foldl (fun a p => a + p.1 * p.2) 0 =
      ∑ j in Finset.range as.length, as.getD j 0 * bs.getD j 0 := by
  rw [foldl_add_eq_sum, zero_add, zip_sum_eq as bs h]

/-- Read of a take-then-drop segment. -/
lemma getD_take_drop (row : List ℚ) (n m j : ℕ) (hj : m + j < n) :
    ((row.take n).drop m).getD j 0 = row.getD (m + j) 0 := by
  rw [List.getD_eq_getElem?_getD, List.getD_eq_getElem?_getD, List.getElem?_drop,
    List.getElem?_take]
  rw [if_pos hj]

/-- Back substitution over an upper-triangular system with nonzero diagonal
satisfies every row. -/
lemma backSub_correct (M : Mat) (n : ℕ) (hd : dimsM n M) (htri : Tri n M) :
    ∀ i xs, i ≤ n → xs.length = n - i →
      (∀ k, i ≤ k → k < n →
        (∑ j in Finset.range (n - i), entry M k (i + j) * xs.getD j 0) = entry M k n) →
      SatM n M (backSubAux M n i xs) := by
  intro i
  induction i with
  | zero =>
    intro xs _ hlen hsat
    intro k hk
    have := hsat k (Nat.zero_le k) hk
    simpa using this
  | succ m ihm =>
    intro xs hin hlen hsat
    rw [backSubAux_succ]
    have hrowlen : (M.getD m []).length = n + 1 := hd.2 m (by omega)
    have hseglen : (((M.getD m []).take n).drop (m + 1)).length = n - (m + 1) := by
      rw [List.length_drop, List.length_take]
      omega
    have hdot : ((((M.getD m []).take n).drop (m + 1)).zip xs).foldl
        (fun a p => a + p.1 * p.2) 0 =
        ∑ j in Finset.range (n - (m + 1)), entry M m (m + 1 + j) * xs.getD j 0 := by
      rw [dot_zip _ _ (by omega), hseglen]
      refine Finset.sum_congr rfl fun j hj => ?_
      rw [getD_take_drop _ n (m + 1) j (by have := Finset.mem_range.mp hj; omega)]
      rfl
    refine ihm _ (by omega) (by simp; omega) ?_
    intro k hmk hkn
    have hnm : n - m = (n - (m + 1)) + 1 := by omega
    rw [hnm, Finset.sum_range_succ']
    have hshift : (∑ j in Finset.range (n - (m + 1)),
        entry M k (m + (j + 1)) *
          ((((M.getD m []).getD n 0 -
            ((((M.getD m []).take n).drop (m + 1)).zip xs).foldl
              (fun a p => a + p.1 * p.2) 0) / (M.getD m []).getD m 0) :: xs).getD (j + 1) 0) =
        ∑ j in Finset.range (n - (m + 1)), entry M k (m + 1 + j) * xs.getD j 0 := by
      refine Finset.sum_congr rfl fun j _ => ?_
      rw [List.getD_cons_succ, show m + (j + 1) = m + 1 + j from by omega]
    rw [hshift]
    by_cases hkm : m < k
    · have hzero : entry M k m = 0 := (htri k hkn).1 m hkm
      rw [List.getD_cons_zero, show m + 0 = m from rfl, hzero, zero_mul, add_zero]
      exact hsat k (by omega) hkn
    · have hkeq : k = m := by omega
      subst hkeq
      rw [List.getD_cons_zero, show k + 0 = k from rfl]
      have hdiag : entry M k k ≠ 0 := (htri k hkn).2
      rw [hdot]
      rw [show (M.getD k []).getD n 0 = entry M k n from rfl,
        show (M.getD k []).getD k 0 = entry M k k from rfl,
        mul_comm (entry M k k), div_mul_cancel₀ _ hdiag]
      ring



/-- Row of the augmented matrix. -/
lemma aug_row (A : Mat) (b : Vec) (hb : b.length = A.length) (k : ℕ)
    (hk : k < A.length) :
    ((A.zip b).map fun rb => rb.1 ++ [rb.2]).getD k [] =
      A.getD k [] ++ [b.getD k 0] := by
  have hzlen : (A.zip b).length = A.length := by
    rw [List.length_zip, hb, min_self]
  have hklt : k < ((A.zip b).map fun rb => rb.1 ++ [rb.2]).length := by
    rw [List.length_map, hzlen]
    exact hk
  rw [List.getD_eq_getElem?_getD, List.getElem?_eq_getElem hklt]
  rw [List.getElem_map, List.getElem_zip]
  rw [List.getD_eq_getElem?_getD, List.getElem?_eq_getElem hk,
    List.getD_eq_getElem?_getD, List.getElem?_eq_getElem (by omega : k < b.length)]
  rfl

/-- The augmented matrix has `n` rows of width `n + 1`. -/
lemma aug_dims (A : Mat) (b : Vec) (hsq : ∀ row ∈ A, row.length = A.length)
    (hb : b.length = A.length) :
    dimsM A.length ((A.zip b).map fun rb => rb.1 ++ [rb.2]) := by
  constructor
  · rw [List.length_map, List.length_zip, hb, min_self]
  · intro k hk
    rw [aug_row A b hb k hk, List.length_append]
    have : (A.getD k []).length = A.length := by
      rw [List.getD_eq_getElem?_getD, List.getElem?_eq_getElem hk]
      exact hsq _ (List.getElem_mem hk)
    rw [this]
    rfl

/-- Entries of the augmented matrix: system part and right-hand side. -/
lemma aug_entry (A : Mat) (b : Vec) (hsq : ∀ row ∈ A, row.length = A.length)
    (hb : b.length = A.length) (k : ℕ) (hk : k < A.length) :
    (∀ j, j < A.length →
      entry ((A.zip b).map fun rb => rb.1 ++ [rb.2]) k j = entry A k j) ∧
    entry ((A.zip b).map fun rb => rb.1 ++ [rb.2]) k A.length = b.getD k 0 := by
  have hrl : (A.getD k []).length = A.length := by
    rw [List.getD_eq_getElem?_getD, List.getElem?_eq_getElem hk]
    exact hsq _ (List.getElem_mem hk)
  constructor
  · intro j hj
    unfold entry
    rw [aug_row A b hb k hk, List.getD_append _ _ _ _ (by omega)]
  · unfold entry
    rw [aug_row A b hb k hk, List.getD_eq_getElem?_getD, List.getElem?_append_right (by omega),
      hrl]
    simp

/-- Claim C4: the solver performs partial pivoting (the selected row
maximises the column absolute value over rows `i..n-1`), the only failure
it can produce is the singular-system message from the `1e-10` pivot
check (illustrated exactly at the threshold: a pivot of `1e-10` succeeds,
`1e-11` fails), and a successful run returns a vector of the right length
solving `G v = I` exactly. -/
theorem gaussian_solver_correct (A : Mat) (b : Vec)
    (hsq : ∀ row ∈ A, row.length = A.length) (hb : b.length = A.length) :
    (∀ e, solveLinearSystem A b = Except.error e → e = singularMsg) ∧
    (∀ x, solveLinearSystem A b = Except.ok x →
      x.length = A.length ∧ matVec A x = b) ∧
    (∀ (M : Mat) (nn i : ℕ), i < nn →
      i ≤ findMaxRow M nn i ∧ findMaxRow M nn i < nn ∧
      ∀ k, i ≤ k → k < nn → |entry M k i| ≤ |entry M (findMaxRow M nn i) i|) ∧
    solveLinearSystem [[pivotEps]] [1] = Except.ok [10 ^ 10] ∧
    solveLinearSystem [[1 / 10 ^ 11]] [1] = Except.error singularMsg := by
  refine ⟨?_, ?_, fun M nn i hi => findMaxRow_spec M nn i hi, ?_, ?_⟩
  · intro e he
    rw [solveLinearSystem_eq] at he
    cases hf : forwardAux A.length 0 A.length ((A.zip b).map fun rb => rb.1 ++ [rb.2]) with
    | error e2 =>
      rw [hf] at he
      simp only [Except.map, Except.error.injEq] at he
      rw [← he]
      exact forwardAux_error _ _ _ _ _ hf
    | ok M =>
      rw [hf] at he
      simp [Except.map] at he
  · intro x hx
    refine ⟨solveLinearSystem_ok_length A b x hx, ?_⟩
    rw [solveLinearSystem_eq] at hx
    cases hf : forwardAux A.length 0 A.length ((A.zip b).map fun rb => rb.1 ++ [rb.2]) with
    | error e2 =>
      rw [hf] at hx
      simp [Except.map] at hx
    | ok M =>
      rw [hf] at hx
      simp only [Except.map, Except.ok.injEq] at hx
      subst hx
      have hdims := aug_dims A b hsq hb
      obtain ⟨hdM, htM, hsM⟩ := forward_correct A.length A.length 0 _ M
        (by omega) (by omega) hdims (fun k _ _ j hj => by omega) (fun k hk => by omega)
        hf
      have hsat : SatM A.length M (backSubAux M A.length A.length []) :=
        backSub_correct M A.length hdM htM A.length [] (le_refl _) (by simp)
          (fun k hk1 hk2 => by omega)
      have hsataug := hsM _ hsat
      set x := backSubAux M A.length A.length [] with hxdef
      have hxlen : x.length = A.length := by
        rw [hxdef, backSubAux_length]
        simp
      refine List.ext_getElem ?_ ?_
      · unfold matVec
        rw [List.length_map, hb]
      · intro k hk1 hk2
        have hkA : k < A.length := by
          unfold matVec at hk1
          rw [List.length_map] at hk1
          exact hk1
        have hgd : A.getD k [] = A[k] := by
          rw [List.getD_eq_getElem?_getD, List.getElem?_eq_getElem hkA]
          rfl
        have hrowk : (A[k]).length = A.length := hsq _ (List.getElem_mem hkA)
        have hgk := hsataug k hkA
        obtain ⟨hsys, hrhs⟩ := aug_entry A b hsq hb k hkA
        have hL : (∑ j in Finset.range A.length,
            entry ((A.zip b).map fun rb => rb.1 ++ [rb.2]) k j * x.getD j 0) =
            ∑ j in Finset.range A.length, entry A k j * x.getD j 0 :=
          Finset.sum_congr rfl fun j hj => by
            rw [hsys j (Finset.mem_range.mp hj)]
        rw [hL, hrhs] at hgk
        have hmv : (matVec A x)[k] =
            ((A.getD k []).zip x).foldl (fun a p => a + p.1 * p.2) 0 := by
          unfold matVec
          rw [List.getElem_map, hgd]
        rw [hmv, dot_zip _ _ (by rw [hgd, hrowk, hxlen]), hgd, hrowk]
        have hbk : b.getD k 0 = b[k] := by
          rw [List.getD_eq_getElem?_getD, List.getElem?_eq_getElem (by omega : k < b.length)]
          rfl
        rw [← hbk]
        refine Eq.trans (Finset.sum_congr rfl fun j hj => ?_) hgk
        rw [← hgd]
        rfl
  · norm_num [solveLinearSystem, forwardAux, findMaxRow, swapRows, elimStep, elimRow,
      backSubAux, pivotEps, entry, getD_set, List.range', Except.map, abs_of_nonneg]
  · norm_num [solveLinearSystem, forwardAux, findMaxRow, swapRows, elimStep, elimRow,
      backSubAux, pivotEps, entry, getD_set, List.range', Except.map, abs_of_nonneg]



/-- Witness for C4: the 1 x 1 system `2 v = 4` is solved at `v = 2`. -/
theorem gaussian_solver_correct_witness :
    ([2] : Vec).length = ([[2]] : Mat).length ∧ matVec [[2]] [2] = [4] :=
  (gaussian_solver_correct [[2]] [4] (by intro row hr; simp at hr; simp [hr]) rfl).2.1 [2]
    (by norm_num [solveLinearSystem, forwardAux, findMaxRow, swapRows, elimStep, elimRow,
      backSubAux, pivotEps, entry, getD_set, List.range', Except.map, abs_of_nonneg])

end CircuitSim
